import Mathlib

/-!
Verification of the BeamLab structural solver core
(`services/solver-python/solver.py`) against its specification.

The Python module is shallowly embedded: pure numerical functions become
Lean functions over `ℝ`, the COO-triplet sparse assembly becomes an
explicit sum over the deposited triplets, the dictionary lookups built by
`{n.id: n for n in nodes}` become a last-match association lookup, and the
fallible solver pipeline returns `Except`.
-/

namespace BeamLab

/-- Embeds the `Node` dataclass of solver.py (id, coordinates, dense DOF index). -/
structure Node where
  id : String
  x : ℝ
  y : ℝ
  z : ℝ
  index : ℕ

/-- Embeds the `Member` dataclass of solver.py (endpoint ids and section properties). -/
structure Member where
  id : String
  startNodeId : String
  endNodeId : String
  E : ℝ
  A : ℝ
  Iy : ℝ
  Iz : ℝ
  G : ℝ
  J : ℝ
  beta : ℝ

/-- Embeds the `Support` dataclass of solver.py: six restraint flags. -/
structure Support where
  nodeId : String
  dx : Bool
  dy : Bool
  dz : Bool
  rx : Bool
  ry : Bool
  rz : Bool

/-- Embeds the `Load` dataclass of solver.py: six nodal load components. -/
structure Load where
  nodeId : String
  fx : ℝ
  fy : ℝ
  fz : ℝ
  mx : ℝ
  my : ℝ
  mz : ℝ

/-- Last-match association lookup.  Python builds `{key(x): x for x in l}`;
a later entry with the same key overwrites an earlier one, so lookup
returns the last element of `l` whose key matches. -/
def assocLast {α : Type} (key : α → String) (l : List α) (k : String) : Option α :=
  l.foldl (fun acc x => if key x = k then some x else acc) none

/-- Embeds `self.nodes = {n.id: n for n in nodes}` followed by `self.nodes.get(nid)`. -/
def dictGet (nodes : List Node) (nid : String) : Option Node :=
  assocLast Node.id nodes nid

/-- Embeds `self.supports = {s.node_id: s for s in supports}` followed by lookup. -/
def supportsGet (supports : List Support) (nid : String) : Option Support :=
  assocLast Support.nodeId supports nid

/-- Embeds `get_member_length` of solver.py. -/
noncomputable def get_member_length (a b : Node) : ℝ :=
  Real.sqrt ((b.x - a.x) * (b.x - a.x) + (b.y - a.y) * (b.y - a.y) +
    (b.z - a.z) * (b.z - a.z))

/-- Embeds the roll matrix `R_roll` built inside `get_rotation_matrix` of solver.py. -/
noncomputable def rollMatrix (beta : ℝ) : Matrix (Fin 3) (Fin 3) ℝ :=
  Matrix.of ![![1, 0, 0],
              ![0, Real.cos beta, Real.sin beta],
              ![0, -Real.sin beta, Real.cos beta]]

/-- Embeds `get_rotation_matrix` of solver.py: direction cosines, the vertical
degenerate case, the general case, and the roll applied when `|β| > 1e-10`
(`if abs(beta) > 1e-10` in the source). -/
noncomputable def get_rotation_matrix (a b : Node) (beta : ℝ) : Matrix (Fin 3) (Fin 3) ℝ :=
  let L := get_member_length a b
  let cx := (b.x - a.x) / L
  let cy := (b.y - a.y) / L
  let cz := (b.z - a.z) / L
  let R :=
    if |cx| < 1e-10 ∧ |cz| < 1e-10 then
      if 0 < cy then
        Matrix.of ![![0, 1, 0], ![-1, 0, 0], ![0, 0, 1]]
      else
        Matrix.of ![![0, -1, 0], ![1, 0, 0], ![0, 0, 1]]
    else
      let D := Real.sqrt (cx * cx + cz * cz)
      Matrix.of ![![cx, cy, cz],
                  ![-cx * cy / D, D, -cy * cz / D],
                  ![-cz / D, 0, cx / D]]
  if 1e-10 < |beta| then R * rollMatrix beta else R

/-- Embeds `get_transformation_matrix` of solver.py: block diagonal with the
3×3 rotation repeated four times. -/
def get_transformation_matrix (R : Matrix (Fin 3) (Fin 3) ℝ) : Matrix (Fin 12) (Fin 12) ℝ :=
  Matrix.of fun i j =>
    if (i : ℕ) / 3 = (j : ℕ) / 3 then
      R ⟨(i : ℕ) % 3, by omega⟩ ⟨(j : ℕ) % 3, by omega⟩
    else 0

/-- Embeds `get_local_stiffness_matrix` of solver.py, entry by entry.  Entries
not assigned by the source are zero (the matrix starts as `np.zeros`). -/
noncomputable def get_local_stiffness_matrix (E Iy Iz A L G J : ℝ) :
    Matrix (Fin 12) (Fin 12) ℝ :=
  Matrix.of fun i j =>
    match (i : ℕ), (j : ℕ) with
    | 0, 0 => E * A / L
    | 0, 6 => -(E * A / L)
    | 6, 0 => -(E * A / L)
    | 6, 6 => E * A / L
    | 3, 3 => G * J / L
    | 3, 9 => -(G * J / L)
    | 9, 3 => -(G * J / L)
    | 9, 9 => G * J / L
    | 1, 1 => 12 * (E * Iz) / (L * L * L)
    | 1, 5 => 6 * (E * Iz) / (L * L)
    | 1, 7 => -(12 * (E * Iz)) / (L * L * L)
    | 1, 11 => 6 * (E * Iz) / (L * L)
    | 5, 1 => 6 * (E * Iz) / (L * L)
    | 5, 5 => 4 * (E * Iz) / L
    | 5, 7 => -(6 * (E * Iz)) / (L * L)
    | 5, 11 => 2 * (E * Iz) / L
    | 7, 1 => -(12 * (E * Iz)) / (L * L * L)
    | 7, 5 => -(6 * (E * Iz)) / (L * L)
    | 7, 7 => 12 * (E * Iz) / (L * L * L)
    | 7, 11 => -(6 * (E * Iz)) / (L * L)
    | 11, 1 => 6 * (E * Iz) / (L * L)
    | 11, 5 => 2 * (E * Iz) / L
    | 11, 7 => -(6 * (E * Iz)) / (L * L)
    | 11, 11 => 4 * (E * Iz) / L
    | 2, 2 => 12 * (E * Iy) / (L * L * L)
    | 2, 4 => -(6 * (E * Iy)) / (L * L)
    | 2, 8 => -(12 * (E * Iy)) / (L * L * L)
    | 2, 10 => -(6 * (E * Iy)) / (L * L)
    | 4, 2 => -(6 * (E * Iy)) / (L * L)
    | 4, 4 => 4 * (E * Iy) / L
    | 4, 8 => 6 * (E * Iy) / (L * L)
    | 4, 10 => 2 * (E * Iy) / L
    | 8, 2 => -(12 * (E * Iy)) / (L * L * L)
    | 8, 4 => 6 * (E * Iy) / (L * L)
    | 8, 8 => 12 * (E * Iy) / (L * L * L)
    | 8, 10 => 6 * (E * Iy) / (L * L)
    | 10, 2 => -(6 * (E * Iy)) / (L * L)
    | 10, 4 => 2 * (E * Iy) / L
    | 10, 8 => 6 * (E * Iy) / (L * L)
    | 10, 10 => 4 * (E * Iy) / L
    | _, _ => 0

/-- The z-axis bending block exactly as written in the spec:
`EI_z/L³ · [[12, 6L, −12, 6L], [6L, 4L², −6L, 2L²], [−12, −6L, 12, −6L], [6L, 2L², −6L, 4L²]]`. -/
noncomputable def zBendingBlockSpec (c L : ℝ) : Matrix (Fin 4) (Fin 4) ℝ :=
  c • Matrix.of ![![12, 6 * L, -12, 6 * L],
                  ![6 * L, 4 * L ^ 2, -6 * L, 2 * L ^ 2],
                  ![-12, -6 * L, 12, -6 * L],
                  ![6 * L, 2 * L ^ 2, -6 * L, 4 * L ^ 2]]

/-- The y-axis bending block per the spec: same pattern as the z block with the
off-diagonal translation-rotation coupling signs negated. -/
noncomputable def yBendingBlockSpec (c L : ℝ) : Matrix (Fin 4) (Fin 4) ℝ :=
  c • Matrix.of ![![12, -(6 * L), -12, -(6 * L)],
                  ![-(6 * L), 4 * L ^ 2, 6 * L, 2 * L ^ 2],
                  ![-12, 6 * L, 12, 6 * L],
                  ![-(6 * L), 2 * L ^ 2, 6 * L, 4 * L ^ 2]]

/-- Position of a DOF inside the z-bending block `{1, 5, 7, 11}` (if any). -/
def zBlockIdx : ℕ → Option (Fin 4)
  | 1 => some 0
  | 5 => some 1
  | 7 => some 2
  | 11 => some 3
  | _ => none

/-- Position of a DOF inside the y-bending block `{2, 4, 8, 10}` (if any). -/
def yBlockIdx : ℕ → Option (Fin 4)
  | 2 => some 0
  | 4 => some 1
  | 8 => some 2
  | 10 => some 3
  | _ => none

/-- The 12×12 local stiffness matrix as described by the specification:
axial `±EA/L` on DOFs {0,6}, torsion `±GJ/L` on DOFs {3,9}, the scaled
z-bending block on DOFs {1,5,7,11}, the sign-flipped y-bending block on
DOFs {2,4,8,10}, and zero everywhere else. -/
noncomputable def localStiffnessSpec (E Iy Iz A L G J : ℝ) :
    Matrix (Fin 12) (Fin 12) ℝ :=
  Matrix.of fun i j =>
    if (i : ℕ) = 0 ∧ (j : ℕ) = 0 then E * A / L
    else if (i : ℕ) = 0 ∧ (j : ℕ) = 6 then -(E * A / L)
    else if (i : ℕ) = 6 ∧ (j : ℕ) = 0 then -(E * A / L)
    else if (i : ℕ) = 6 ∧ (j : ℕ) = 6 then E * A / L
    else if (i : ℕ) = 3 ∧ (j : ℕ) = 3 then G * J / L
    else if (i : ℕ) = 3 ∧ (j : ℕ) = 9 then -(G * J / L)
    else if (i : ℕ) = 9 ∧ (j : ℕ) = 3 then -(G * J / L)
    else if (i : ℕ) = 9 ∧ (j : ℕ) = 9 then G * J / L
    else
      match zBlockIdx (i : ℕ), zBlockIdx (j : ℕ) with
      | some p, some q => zBendingBlockSpec (E * Iz / L ^ 3) L p q
      | _, _ =>
        match yBlockIdx (i : ℕ), yBlockIdx (j : ℕ) with
        | some p, some q => yBendingBlockSpec (E * Iy / L ^ 3) L p q
        | _, _ => 0

/-- The rotation matrix exactly as the claim describes it, with the roll
applied whenever `β ≠ 0` (the source instead applies it when `|β| > 1e-10`). -/
noncomputable def rotationSpecClaim (a b : Node) (beta : ℝ) : Matrix (Fin 3) (Fin 3) ℝ :=
  let L := get_member_length a b
  let cx := (b.x - a.x) / L
  let cy := (b.y - a.y) / L
  let cz := (b.z - a.z) / L
  let R :=
    if |cx| < 1e-10 ∧ |cz| < 1e-10 then
      Matrix.of ![![0, Real.sign cy, 0], ![-Real.sign cy, 0, 0], ![0, 0, 1]]
    else
      let D := Real.sqrt (cx * cx + cz * cz)
      Matrix.of ![![cx, cy, cz],
                  ![-cx * cy / D, D, -cy * cz / D],
                  ![-cz / D, 0, cx / D]]
  if beta ≠ 0 then R * rollMatrix beta else R

/-- The rotation matrix as the claim describes it, amended so that the roll is
applied exactly when `|β| > 1e-10` (matching the source's tolerance). -/
noncomputable def rotationSpecAmended (a b : Node) (beta : ℝ) : Matrix (Fin 3) (Fin 3) ℝ :=
  let L := get_member_length a b
  let cx := (b.x - a.x) / L
  let cy := (b.y - a.y) / L
  let cz := (b.z - a.z) / L
  let R :=
    if |cx| < 1e-10 ∧ |cz| < 1e-10 then
      Matrix.of ![![0, Real.sign cy, 0], ![-Real.sign cy, 0, 0], ![0, 0, 1]]
    else
      let D := Real.sqrt (cx * cx + cz * cz)
      Matrix.of ![![cx, cy, cz],
                  ![-cx * cy / D, D, -cy * cz / D],
                  ![-cz / D, 0, cx / D]]
  if 1e-10 < |beta| then R * rollMatrix beta else R

/-- Embeds the element contribution `k_global = T.T @ k_local @ T` from
`SparseAssembler.add_element` of solver.py. -/
noncomputable def k_global (m : Member) (a b : Node) : Matrix (Fin 12) (Fin 12) ℝ :=
  let T := get_transformation_matrix (get_rotation_matrix a b m.beta)
  Matrix.transpose T *
    get_local_stiffness_matrix m.E m.Iy m.Iz m.A (get_member_length a b) m.G m.J * T

/-- Embeds `_get_member_dof_map` of solver.py: the 12 global DOF indices
`[6·index_a .. 6·index_a+5, 6·index_b .. 6·index_b+5]`. -/
def dof_map (a b : Node) (i : Fin 12) : ℕ :=
  if (i : ℕ) < 6 then a.index * 6 + (i : ℕ) else b.index * 6 + ((i : ℕ) - 6)

/-- The total value the COO triplets of one member deposit at global position
`(p, q)`.  `_assemble_global_stiffness` skips members whose endpoints do not
resolve or whose length is below `1e-10`; `add_element` emits a triplet
`(dof_map[i], dof_map[j], k_global[i,j])` for every pair with
`|k_global[i,j]| > 1e-15`; COO→CSR conversion sums duplicate positions. -/
noncomputable def memberContribution (nodes : List Node) (m : Member) (p q : ℕ) : ℝ :=
  match dictGet nodes m.startNodeId, dictGet nodes m.endNodeId with
  | some a, some b =>
      if get_member_length a b < 1e-10 then 0
      else
        ∑ i : Fin 12, ∑ j : Fin 12,
          if dof_map a b i = p ∧ dof_map a b j = q ∧ 1e-15 < |k_global m a b i j| then
            k_global m a b i j
          else 0
  | _, _ => 0

/-- Entry `(p, q)` of the assembled global stiffness matrix (CSR after
duplicate summation): the sum of all members' deposits at `(p, q)`. -/
noncomputable def assembleK (nodes : List Node) (members : List Member) (p q : ℕ) : ℝ :=
  (members.map fun m => memberContribution nodes m p q).sum

/-- One iteration of the `for load in self.loads` loop of
`_build_force_vector`: if the load's node resolves, ASSIGN (not accumulate)
its six components at the node's six global DOFs; otherwise leave the vector
unchanged. -/
def applyLoad (nodes : List Node) (F : ℕ → ℝ) (load : Load) : ℕ → ℝ :=
  match dictGet nodes load.nodeId with
  | none => F
  | some node => fun d =>
      if d = node.index * 6 then load.fx
      else if d = node.index * 6 + 1 then load.fy
      else if d = node.index * 6 + 2 then load.fz
      else if d = node.index * 6 + 3 then load.mx
      else if d = node.index * 6 + 4 then load.my
      else if d = node.index * 6 + 5 then load.mz
      else F d

/-- Embeds `_build_force_vector` of solver.py: starting from the zero vector,
apply each load in list order. -/
def build_force_vector (nodes : List Node) (loads : List Load) : ℕ → ℝ :=
  loads.foldl (applyLoad nodes) (fun _ => 0)

/-- Restraint flag of a support at DOF offset `i`, in the fixed DOF order
`(dx, dy, dz, rx, ry, rz)`. -/
def restraint (s : Support) : Fin 6 → Bool
  | 0 => s.dx
  | 1 => s.dy
  | 2 => s.dz
  | 3 => s.rx
  | 4 => s.ry
  | 5 => s.rz

/-- The six restraint flags of a support in DOF order, as the list
`[support.dx, support.dy, support.dz, support.rx, support.ry, support.rz]`
built inside `_identify_dofs` of solver.py. -/
def restraintList (s : Support) : List Bool :=
  [s.dx, s.dy, s.dz, s.rx, s.ry, s.rz]

/-- Splits the DOFs `base+i, base+i+1, ...` between the free list (flag
`false`) and the constrained list (flag `true`), preserving ascending order —
the inner `for i, is_constrained in enumerate(constraints)` loop of
`_identify_dofs`. -/
def splitDofs (base : ℕ) : List Bool → ℕ → List ℕ × List ℕ
  | [], _ => ([], [])
  | c :: rest, i =>
      let t := splitDofs base rest (i + 1)
      if c then (t.1, (base + i) :: t.2) else ((base + i) :: t.1, t.2)

/-- The free DOFs one node contributes in `_identify_dofs`: all six when the
node has no support record, otherwise those whose restraint flag is false. -/
def nodeFreeDofs (supports : List Support) (node : Node) : List ℕ :=
  match supportsGet supports node.id with
  | some s => (splitDofs (node.index * 6) (restraintList s) 0).1
  | none => (List.range 6).map (fun i => node.index * 6 + i)

/-- The constrained DOFs one node contributes in `_identify_dofs`. -/
def nodeConsDofs (supports : List Support) (node : Node) : List ℕ :=
  match supportsGet supports node.id with
  | some s => (splitDofs (node.index * 6) (restraintList s) 0).2
  | none => []

/-- Embeds `_identify_dofs` of solver.py.  The Python loop appends each node's
contribution to the two growing lists in node order; the result is therefore
the concatenation of the per-node segments. -/
def identify_dofs (nodes : List Node) (supports : List Support) : List ℕ × List ℕ :=
  (nodes.flatMap (nodeFreeDofs supports), nodes.flatMap (nodeConsDofs supports))

/-- Embeds the reduced stiffness `K[np.ix_(free_dofs, free_dofs)]`. -/
noncomputable def reducedK (nodes : List Node) (members : List Member)
    (free : List ℕ) : Matrix (Fin free.length) (Fin free.length) ℝ :=
  Matrix.of fun i j => assembleK nodes members (free.get i) (free.get j)

/-- Embeds the reduced force vector `F[free_dofs]`. -/
def reducedF (nodes : List Node) (loads : List Load) (free : List ℕ) :
    Fin free.length → ℝ :=
  fun i => build_force_vector nodes loads (free.get i)

/-- Embeds `u_full = np.zeros(num_dofs); u_full[free_dofs] = u_reduced`:
scatter the reduced solution back to the full DOF vector (zero at
constrained DOFs).  For the strictly sorted (hence duplicate-free) free list
produced by `_identify_dofs`, position `k` of the list receives `u k`. -/
noncomputable def scatter (free : List ℕ) (u : Fin free.length → ℝ) : ℕ → ℝ :=
  fun d =>
    if h : d ∈ free then u ⟨free.indexOf d, List.indexOf_lt_length.2 h⟩ else 0

/-- Modelled from the spec: `scipy.sparse.linalg.spsolve` (the direct SuperLU
path) computes the solution of the reduced linear system.  It is modelled as
multiplication by the matrix inverse; for a singular matrix Mathlib's
`Matrix.inv` is the zero matrix (scipy would emit a singular-matrix warning
and NaNs there). -/
noncomputable def solve_direct {n : ℕ} (K : Matrix (Fin n) (Fin n) ℝ)
    (F : Fin n → ℝ) : Fin n → ℝ :=
  K⁻¹.mulVec F

/-- Modelled from the spec: the value pair `(u, info)` that
`scipy.sparse.linalg.cg` returns on a normal (non-raising) return, plus the
iteration count accumulated by the callback.  `info = 0` means converged;
`info = maxiter` means the iteration limit was reached without meeting the
tolerance. -/
structure CGOutcome where
  u : ℕ → ℝ
  info : ℕ
  iterations : ℕ

/-- Embeds the solver-selection guard `if use_iterative or len(free_dofs) > 10000`
of `StructuralSolver.solve`. -/
def uses_iterative (use_iterative : Bool) (numFree : ℕ) : Bool :=
  use_iterative || decide (10000 < numFree)

/-- Embeds the flag adjustment in `main` of solver.py:
`use_iterative = config.useIterative; if len(nodes) > 2000: use_iterative = True`. -/
def effective_use_iterative (configFlag : Bool) (numNodes : ℕ) : Bool :=
  if 2000 < numNodes then true else configFlag

/-- The `solverInfo` block of the result: either the direct-SuperLU record or
the CG record with iteration count and convergence flag. -/
inductive SolverInfo where
  | direct (success : Bool)
  | cg (success : Bool) (iterations : ℕ) (converged : Bool)
deriving DecidableEq

/-- The modelled fields of the result dictionary `StructuralSolver.solve`
returns: the top-level `success` flag (always `True` in the source), the full
displacement vector, the reactions `K·u − F`, and the solver info. -/
structure SolveResult where
  success : Bool
  displacements : ℕ → ℝ
  reactions : ℕ → ℝ
  solverInfo : SolverInfo

/-- The fatal errors `report_error` can emit on the modelled paths.  (The
source has no topology error: members with unresolved endpoints are skipped.) -/
inductive SolveError where
  | fullyConstrained
deriving DecidableEq

/-- Reactions `R = K @ u_full - F` over the `6·N` global DOFs. -/
noncomputable def reactionsOf (nodes : List Node) (members : List Member)
    (loads : List Load) (u : ℕ → ℝ) : ℕ → ℝ :=
  fun d =>
    (∑ e ∈ Finset.range (6 * nodes.length), assembleK nodes members d e * u e) -
      build_force_vector nodes loads d

/-- The result the iterative (CG) path produces from the cg outcome:
`_solve_iterative` returns the iterate and a solver-info record with
`success = converged = (info == 0)`; `solve` then builds a result whose
top-level `success` is `True` regardless. -/
noncomputable def iterativeResult (nodes : List Node) (members : List Member)
    (supports : List Support) (loads : List Load) (cg : CGOutcome) : SolveResult :=
  let free := (identify_dofs nodes supports).1
  let u := scatter free fun i => cg.u i
  { success := true
    displacements := u
    reactions := reactionsOf nodes members loads u
    solverInfo := SolverInfo.cg (decide (cg.info = 0)) cg.iterations (decide (cg.info = 0)) }

/-- The result the direct (SuperLU) path produces. -/
noncomputable def directResult (nodes : List Node) (members : List Member)
    (supports : List Support) (loads : List Load) : SolveResult :=
  let free := (identify_dofs nodes supports).1
  let u := scatter free (solve_direct (reducedK nodes members free) (reducedF nodes loads free))
  { success := true
    displacements := u
    reactions := reactionsOf nodes members loads u
    solverInfo := SolverInfo.direct true }

/-- Embeds `StructuralSolver.solve`: assemble, build forces, partition DOFs,
bail out with the fully-constrained error when no DOF is free, otherwise
solve the reduced system on the selected path and build the result.  The CG
call is modelled by its outcome `cg`. -/
noncomputable def solveModel (nodes : List Node) (members : List Member)
    (supports : List Support) (loads : List Load) (use_iterative : Bool)
    (cg : CGOutcome) : Except SolveError SolveResult :=
  let free := (identify_dofs nodes supports).1
  if free = [] then Except.error SolveError.fullyConstrained
  else if uses_iterative use_iterative free.length then
    Except.ok (iterativeResult nodes members supports loads cg)
  else
    Except.ok (directResult nodes members supports loads)

/-- True exactly on the `ok` constructor. -/
def isOkE {ε α : Type} : Except ε α → Bool
  | Except.ok _ => true
  | Except.error _ => false

/-- The displacement vector of the direct path as a function of the model —
the quantity the superposition claim is about. -/
noncomputable def displacements_direct (nodes : List Node) (members : List Member)
    (supports : List Support) (loads : List Load) : ℕ → ℝ :=
  (directResult nodes members supports loads).displacements

/-- Componentwise sum of two nodal loads at the same node. -/
def addLoad (l1 l2 : Load) : Load :=
  ⟨l1.nodeId, l1.fx + l2.fx, l1.fy + l2.fy, l1.fz + l2.fz,
    l1.mx + l2.mx, l1.my + l2.my, l1.mz + l2.mz⟩

/-- The combined load set `L₁ + L₂` of the superposition claim: the two load
lists reference the same nodes record by record and the components add. -/
def combineLoads (L1 L2 : List Load) : List Load :=
  List.zipWith addLoad L1 L2

/-- Component `i` of a load in DOF order `(fx, fy, fz, mx, my, mz)`. -/
def loadComponent (l : Load) : Fin 6 → ℝ
  | 0 => l.fx
  | 1 => l.fy
  | 2 => l.fz
  | 3 => l.mx
  | 4 => l.my
  | 5 => l.mz

/-- Concrete test node at the origin, index 0. -/
def wNode0 : Node := ⟨"n0", 0, 0, 0, 0⟩

/-- Concrete test node at `(1, 0, 0)`, index 1. -/
def wNode1 : Node := ⟨"n1", 1, 0, 0, 1⟩

/-- Concrete unit-property member from `n0` to `n1`. -/
def wMember : Member := ⟨"m0", "n0", "n1", 1, 1, 1, 1, 1, 1, 0⟩

/-- Concrete member whose start node id `"nx"` resolves to no node. -/
def wBadMember : Member := ⟨"m1", "nx", "n1", 1, 1, 1, 1, 1, 1, 0⟩

/-- Fixed support at `n0` (all six DOFs restrained). -/
def wSupportFixed : Support := ⟨"n0", true, true, true, true, true, true⟩

/-- Support at `n1` restraining everything except the axial translation `dx`. -/
def wSupportAxial : Support := ⟨"n1", false, true, true, true, true, true⟩

/-- Concrete axial load at `n1`. -/
def wLoad1 : Load := ⟨"n1", 1, 0, 0, 0, 0, 0⟩

/-- A second concrete axial load at `n1`. -/
def wLoad2 : Load := ⟨"n1", 2, 0, 0, 0, 0, 0⟩

/-- A cg outcome that hit the iteration limit without converging
(`info = maxiter = 2000`). -/
def wCGFail : CGOutcome := ⟨fun _ => 0, 2000, 2000⟩

/-- A converged cg outcome. -/
def wCGConv : CGOutcome := ⟨fun _ => 0, 0, 12⟩

/-!  Theorems.  -/

/-- The local stiffness matrix is symmetric: every entry pair is written
identically in the source. -/
theorem local_stiffness_transpose (E Iy Iz A L G J : ℝ) :
    Matrix.transpose (get_local_stiffness_matrix E Iy Iz A L G J) =
      get_local_stiffness_matrix E Iy Iz A L G J := by
  ext i j
  fin_cases i <;> fin_cases j <;> rfl

/-- C1: for all section properties and every length `L > 0`,
`get_local_stiffness_matrix` equals the four-decoupled-block matrix of the
specification (axial `±EA/L` on DOFs {0,6}, torsion `±GJ/L` on DOFs {3,9},
the scaled `E·Iz/L³` bending block on DOFs {1,5,7,11}, the sign-flipped
`E·Iy/L³` block on DOFs {2,4,8,10}, zero elsewhere) and is its own
transpose. -/
theorem claim_c1 (E G A Iy Iz J L : ℝ) (hL : 0 < L) :
    get_local_stiffness_matrix E Iy Iz A L G J = localStiffnessSpec E Iy Iz A L G J ∧
    Matrix.transpose (get_local_stiffness_matrix E Iy Iz A L G J) =
      get_local_stiffness_matrix E Iy Iz A L G J := by
  have hL' : L ≠ 0 := ne_of_gt hL
  refine ⟨?_, local_stiffness_transpose E Iy Iz A L G J⟩
  ext i j
  fin_cases i <;> fin_cases j <;> try rfl
  · show 12 * (E * Iz) / (L * L * L) = zBendingBlockSpec (E * Iz / L ^ 3) L 0 0
    simp only [zBendingBlockSpec, yBendingBlockSpec, Matrix.smul_apply, Matrix.of_apply,
      Matrix.cons_val', Matrix.cons_val_zero, Matrix.cons_val_one, Matrix.head_cons,
      Matrix.empty_val', Matrix.cons_val_fin_one, Matrix.head_fin_const, Matrix.cons_val_two,
      Matrix.cons_val_three, Matrix.tail_cons, smul_eq_mul]
    field_simp
    ring
  · show 6 * (E * Iz) / (L * L) = zBendingBlockSpec (E * Iz / L ^ 3) L 0 1
    simp only [zBendingBlockSpec, yBendingBlockSpec, Matrix.smul_apply, Matrix.of_apply,
      Matrix.cons_val', Matrix.cons_val_zero, Matrix.cons_val_one, Matrix.head_cons,
      Matrix.empty_val', Matrix.cons_val_fin_one, Matrix.head_fin_const, Matrix.cons_val_two,
      Matrix.cons_val_three, Matrix.tail_cons, smul_eq_mul]
    field_simp
    ring
  · show -(12 * (E * Iz)) / (L * L * L) = zBendingBlockSpec (E * Iz / L ^ 3) L 0 2
    simp only [zBendingBlockSpec, yBendingBlockSpec, Matrix.smul_apply, Matrix.of_apply,
      Matrix.cons_val', Matrix.cons_val_zero, Matrix.cons_val_one, Matrix.head_cons,
      Matrix.empty_val', Matrix.cons_val_fin_one, Matrix.head_fin_const, Matrix.cons_val_two,
      Matrix.cons_val_three, Matrix.tail_cons, smul_eq_mul]
    field_simp
    ring
  · show 6 * (E * Iz) / (L * L) = zBendingBlockSpec (E * Iz / L ^ 3) L 0 3
    simp only [zBendingBlockSpec, yBendingBlockSpec, Matrix.smul_apply, Matrix.of_apply,
      Matrix.cons_val', Matrix.cons_val_zero, Matrix.cons_val_one, Matrix.head_cons,
      Matrix.empty_val', Matrix.cons_val_fin_one, Matrix.head_fin_const, Matrix.cons_val_two,
      Matrix.cons_val_three, Matrix.tail_cons, smul_eq_mul]
    field_simp
    ring
  · show 12 * (E * Iy) / (L * L * L) = yBendingBlockSpec (E * Iy / L ^ 3) L 0 0
    simp only [zBendingBlockSpec, yBendingBlockSpec, Matrix.smul_apply, Matrix.of_apply,
      Matrix.cons_val', Matrix.cons_val_zero, Matrix.cons_val_one, Matrix.head_cons,
      Matrix.empty_val', Matrix.cons_val_fin_one, Matrix.head_fin_const, Matrix.cons_val_two,
      Matrix.cons_val_three, Matrix.tail_cons, smul_eq_mul]
    field_simp
    ring
  · show -(6 * (E * Iy)) / (L * L) = yBendingBlockSpec (E * Iy / L ^ 3) L 0 1
    simp only [zBendingBlockSpec, yBendingBlockSpec, Matrix.smul_apply, Matrix.of_apply,
      Matrix.cons_val', Matrix.cons_val_zero, Matrix.cons_val_one, Matrix.head_cons,
      Matrix.empty_val', Matrix.cons_val_fin_one, Matrix.head_fin_const, Matrix.cons_val_two,
      Matrix.cons_val_three, Matrix.tail_cons, smul_eq_mul]
    field_simp
    ring
  · show -(12 * (E * Iy)) / (L * L * L) = yBendingBlockSpec (E * Iy / L ^ 3) L 0 2
    simp only [zBendingBlockSpec, yBendingBlockSpec, Matrix.smul_apply, Matrix.of_apply,
      Matrix.cons_val', Matrix.cons_val_zero, Matrix.cons_val_one, Matrix.head_cons,
      Matrix.empty_val', Matrix.cons_val_fin_one, Matrix.head_fin_const, Matrix.cons_val_two,
      Matrix.cons_val_three, Matrix.tail_cons, smul_eq_mul]
    field_simp
    ring
  · show -(6 * (E * Iy)) / (L * L) = yBendingBlockSpec (E * Iy / L ^ 3) L 0 3
    simp only [zBendingBlockSpec, yBendingBlockSpec, Matrix.smul_apply, Matrix.of_apply,
      Matrix.cons_val', Matrix.cons_val_zero, Matrix.cons_val_one, Matrix.head_cons,
      Matrix.empty_val', Matrix.cons_val_fin_one, Matrix.head_fin_const, Matrix.cons_val_two,
      Matrix.cons_val_three, Matrix.tail_cons, smul_eq_mul]
    field_simp
    ring
  · show -(6 * (E * Iy)) / (L * L) = yBendingBlockSpec (E * Iy / L ^ 3) L 1 0
    simp only [zBendingBlockSpec, yBendingBlockSpec, Matrix.smul_apply, Matrix.of_apply,
      Matrix.cons_val', Matrix.cons_val_zero, Matrix.cons_val_one, Matrix.head_cons,
      Matrix.empty_val', Matrix.cons_val_fin_one, Matrix.head_fin_const, Matrix.cons_val_two,
      Matrix.cons_val_three, Matrix.tail_cons, smul_eq_mul]
    field_simp
    ring
  · show 4 * (E * Iy) / L = yBendingBlockSpec (E * Iy / L ^ 3) L 1 1
    simp only [zBendingBlockSpec, yBendingBlockSpec, Matrix.smul_apply, Matrix.of_apply,
      Matrix.cons_val', Matrix.cons_val_zero, Matrix.cons_val_one, Matrix.head_cons,
      Matrix.empty_val', Matrix.cons_val_fin_one, Matrix.head_fin_const, Matrix.cons_val_two,
      Matrix.cons_val_three, Matrix.tail_cons, smul_eq_mul]
    field_simp
    ring
  · show 6 * (E * Iy) / (L * L) = yBendingBlockSpec (E * Iy / L ^ 3) L 1 2
    simp only [zBendingBlockSpec, yBendingBlockSpec, Matrix.smul_apply, Matrix.of_apply,
      Matrix.cons_val', Matrix.cons_val_zero, Matrix.cons_val_one, Matrix.head_cons,
      Matrix.empty_val', Matrix.cons_val_fin_one, Matrix.head_fin_const, Matrix.cons_val_two,
      Matrix.cons_val_three, Matrix.tail_cons, smul_eq_mul]
    field_simp
    ring
  · show 2 * (E * Iy) / L = yBendingBlockSpec (E * Iy / L ^ 3) L 1 3
    simp only [zBendingBlockSpec, yBendingBlockSpec, Matrix.smul_apply, Matrix.of_apply,
      Matrix.cons_val', Matrix.cons_val_zero, Matrix.cons_val_one, Matrix.head_cons,
      Matrix.empty_val', Matrix.cons_val_fin_one, Matrix.head_fin_const, Matrix.cons_val_two,
      Matrix.cons_val_three, Matrix.tail_cons, smul_eq_mul]
    field_simp
    ring
  · show 6 * (E * Iz) / (L * L) = zBendingBlockSpec (E * Iz / L ^ 3) L 1 0
    simp only [zBendingBlockSpec, yBendingBlockSpec, Matrix.smul_apply, Matrix.of_apply,
      Matrix.cons_val', Matrix.cons_val_zero, Matrix.cons_val_one, Matrix.head_cons,
      Matrix.empty_val', Matrix.cons_val_fin_one, Matrix.head_fin_const, Matrix.cons_val_two,
      Matrix.cons_val_three, Matrix.tail_cons, smul_eq_mul]
    field_simp
    ring
  · show 4 * (E * Iz) / L = zBendingBlockSpec (E * Iz / L ^ 3) L 1 1
    simp only [zBendingBlockSpec, yBendingBlockSpec, Matrix.smul_apply, Matrix.of_apply,
      Matrix.cons_val', Matrix.cons_val_zero, Matrix.cons_val_one, Matrix.head_cons,
      Matrix.empty_val', Matrix.cons_val_fin_one, Matrix.head_fin_const, Matrix.cons_val_two,
      Matrix.cons_val_three, Matrix.tail_cons, smul_eq_mul]
    field_simp
    ring
  · show -(6 * (E * Iz)) / (L * L) = zBendingBlockSpec (E * Iz / L ^ 3) L 1 2
    simp only [zBendingBlockSpec, yBendingBlockSpec, Matrix.smul_apply, Matrix.of_apply,
      Matrix.cons_val', Matrix.cons_val_zero, Matrix.cons_val_one, Matrix.head_cons,
      Matrix.empty_val', Matrix.cons_val_fin_one, Matrix.head_fin_const, Matrix.cons_val_two,
      Matrix.cons_val_three, Matrix.tail_cons, smul_eq_mul]
    field_simp
    ring
  · show 2 * (E * Iz) / L = zBendingBlockSpec (E * Iz / L ^ 3) L 1 3
    simp only [zBendingBlockSpec, yBendingBlockSpec, Matrix.smul_apply, Matrix.of_apply,
      Matrix.cons_val', Matrix.cons_val_zero, Matrix.cons_val_one, Matrix.head_cons,
      Matrix.empty_val', Matrix.cons_val_fin_one, Matrix.head_fin_const, Matrix.cons_val_two,
      Matrix.cons_val_three, Matrix.tail_cons, smul_eq_mul]
    field_simp
    ring
  · show -(12 * (E * Iz)) / (L * L * L) = zBendingBlockSpec (E * Iz / L ^ 3) L 2 0
    simp only [zBendingBlockSpec, yBendingBlockSpec, Matrix.smul_apply, Matrix.of_apply,
      Matrix.cons_val', Matrix.cons_val_zero, Matrix.cons_val_one, Matrix.head_cons,
      Matrix.empty_val', Matrix.cons_val_fin_one, Matrix.head_fin_const, Matrix.cons_val_two,
      Matrix.cons_val_three, Matrix.tail_cons, smul_eq_mul]
    field_simp
    ring
  · show -(6 * (E * Iz)) / (L * L) = zBendingBlockSpec (E * Iz / L ^ 3) L 2 1
    simp only [zBendingBlockSpec, yBendingBlockSpec, Matrix.smul_apply, Matrix.of_apply,
      Matrix.cons_val', Matrix.cons_val_zero, Matrix.cons_val_one, Matrix.head_cons,
      Matrix.empty_val', Matrix.cons_val_fin_one, Matrix.head_fin_const, Matrix.cons_val_two,
      Matrix.cons_val_three, Matrix.tail_cons, smul_eq_mul]
    field_simp
    ring
  · show 12 * (E * Iz) / (L * L * L) = zBendingBlockSpec (E * Iz / L ^ 3) L 2 2
    simp only [zBendingBlockSpec, yBendingBlockSpec, Matrix.smul_apply, Matrix.of_apply,
      Matrix.cons_val', Matrix.cons_val_zero, Matrix.cons_val_one, Matrix.head_cons,
      Matrix.empty_val', Matrix.cons_val_fin_one, Matrix.head_fin_const, Matrix.cons_val_two,
      Matrix.cons_val_three, Matrix.tail_cons, smul_eq_mul]
    field_simp
    ring
  · show -(6 * (E * Iz)) / (L * L) = zBendingBlockSpec (E * Iz / L ^ 3) L 2 3
    simp only [zBendingBlockSpec, yBendingBlockSpec, Matrix.smul_apply, Matrix.of_apply,
      Matrix.cons_val', Matrix.cons_val_zero, Matrix.cons_val_one, Matrix.head_cons,
      Matrix.empty_val', Matrix.cons_val_fin_one, Matrix.head_fin_const, Matrix.cons_val_two,
      Matrix.cons_val_three, Matrix.tail_cons, smul_eq_mul]
    field_simp
    ring
  · show -(12 * (E * Iy)) / (L * L * L) = yBendingBlockSpec (E * Iy / L ^ 3) L 2 0
    simp only [zBendingBlockSpec, yBendingBlockSpec, Matrix.smul_apply, Matrix.of_apply,
      Matrix.cons_val', Matrix.cons_val_zero, Matrix.cons_val_one, Matrix.head_cons,
      Matrix.empty_val', Matrix.cons_val_fin_one, Matrix.head_fin_const, Matrix.cons_val_two,
      Matrix.cons_val_three, Matrix.tail_cons, smul_eq_mul]
    field_simp
    ring
  · show 6 * (E * Iy) / (L * L) = yBendingBlockSpec (E * Iy / L ^ 3) L 2 1
    simp only [zBendingBlockSpec, yBendingBlockSpec, Matrix.smul_apply, Matrix.of_apply,
      Matrix.cons_val', Matrix.cons_val_zero, Matrix.cons_val_one, Matrix.head_cons,
      Matrix.empty_val', Matrix.cons_val_fin_one, Matrix.head_fin_const, Matrix.cons_val_two,
      Matrix.cons_val_three, Matrix.tail_cons, smul_eq_mul]
    field_simp
    ring
  · show 12 * (E * Iy) / (L * L * L) = yBendingBlockSpec (E * Iy / L ^ 3) L 2 2
    simp only [zBendingBlockSpec, yBendingBlockSpec, Matrix.smul_apply, Matrix.of_apply,
      Matrix.cons_val', Matrix.cons_val_zero, Matrix.cons_val_one, Matrix.head_cons,
      Matrix.empty_val', Matrix.cons_val_fin_one, Matrix.head_fin_const, Matrix.cons_val_two,
      Matrix.cons_val_three, Matrix.tail_cons, smul_eq_mul]
    field_simp
    ring
  · show 6 * (E * Iy) / (L * L) = yBendingBlockSpec (E * Iy / L ^ 3) L 2 3
    simp only [zBendingBlockSpec, yBendingBlockSpec, Matrix.smul_apply, Matrix.of_apply,
      Matrix.cons_val', Matrix.cons_val_zero, Matrix.cons_val_one, Matrix.head_cons,
      Matrix.empty_val', Matrix.cons_val_fin_one, Matrix.head_fin_const, Matrix.cons_val_two,
      Matrix.cons_val_three, Matrix.tail_cons, smul_eq_mul]
    field_simp
    ring
  · show -(6 * (E * Iy)) / (L * L) = yBendingBlockSpec (E * Iy / L ^ 3) L 3 0
    simp only [zBendingBlockSpec, yBendingBlockSpec, Matrix.smul_apply, Matrix.of_apply,
      Matrix.cons_val', Matrix.cons_val_zero, Matrix.cons_val_one, Matrix.head_cons,
      Matrix.empty_val', Matrix.cons_val_fin_one, Matrix.head_fin_const, Matrix.cons_val_two,
      Matrix.cons_val_three, Matrix.tail_cons, smul_eq_mul]
    field_simp
    ring
  · show 2 * (E * Iy) / L = yBendingBlockSpec (E * Iy / L ^ 3) L 3 1
    simp only [zBendingBlockSpec, yBendingBlockSpec, Matrix.smul_apply, Matrix.of_apply,
      Matrix.cons_val', Matrix.cons_val_zero, Matrix.cons_val_one, Matrix.head_cons,
      Matrix.empty_val', Matrix.cons_val_fin_one, Matrix.head_fin_const, Matrix.cons_val_two,
      Matrix.cons_val_three, Matrix.tail_cons, smul_eq_mul]
    field_simp
    ring
  · show 6 * (E * Iy) / (L * L) = yBendingBlockSpec (E * Iy / L ^ 3) L 3 2
    simp only [zBendingBlockSpec, yBendingBlockSpec, Matrix.smul_apply, Matrix.of_apply,
      Matrix.cons_val', Matrix.cons_val_zero, Matrix.cons_val_one, Matrix.head_cons,
      Matrix.empty_val', Matrix.cons_val_fin_one, Matrix.head_fin_const, Matrix.cons_val_two,
      Matrix.cons_val_three, Matrix.tail_cons, smul_eq_mul]
    field_simp
    ring
  · show 4 * (E * Iy) / L = yBendingBlockSpec (E * Iy / L ^ 3) L 3 3
    simp only [zBendingBlockSpec, yBendingBlockSpec, Matrix.smul_apply, Matrix.of_apply,
      Matrix.cons_val', Matrix.cons_val_zero, Matrix.cons_val_one, Matrix.head_cons,
      Matrix.empty_val', Matrix.cons_val_fin_one, Matrix.head_fin_const, Matrix.cons_val_two,
      Matrix.cons_val_three, Matrix.tail_cons, smul_eq_mul]
    field_simp
    ring
  · show 6 * (E * Iz) / (L * L) = zBendingBlockSpec (E * Iz / L ^ 3) L 3 0
    simp only [zBendingBlockSpec, yBendingBlockSpec, Matrix.smul_apply, Matrix.of_apply,
      Matrix.cons_val', Matrix.cons_val_zero, Matrix.cons_val_one, Matrix.head_cons,
      Matrix.empty_val', Matrix.cons_val_fin_one, Matrix.head_fin_const, Matrix.cons_val_two,
      Matrix.cons_val_three, Matrix.tail_cons, smul_eq_mul]
    field_simp
    ring
  · show 2 * (E * Iz) / L = zBendingBlockSpec (E * Iz / L ^ 3) L 3 1
    simp only [zBendingBlockSpec, yBendingBlockSpec, Matrix.smul_apply, Matrix.of_apply,
      Matrix.cons_val', Matrix.cons_val_zero, Matrix.cons_val_one, Matrix.head_cons,
      Matrix.empty_val', Matrix.cons_val_fin_one, Matrix.head_fin_const, Matrix.cons_val_two,
      Matrix.cons_val_three, Matrix.tail_cons, smul_eq_mul]
    field_simp
    ring
  · show -(6 * (E * Iz)) / (L * L) = zBendingBlockSpec (E * Iz / L ^ 3) L 3 2
    simp only [zBendingBlockSpec, yBendingBlockSpec, Matrix.smul_apply, Matrix.of_apply,
      Matrix.cons_val', Matrix.cons_val_zero, Matrix.cons_val_one, Matrix.head_cons,
      Matrix.empty_val', Matrix.cons_val_fin_one, Matrix.head_fin_const, Matrix.cons_val_two,
      Matrix.cons_val_three, Matrix.tail_cons, smul_eq_mul]
    field_simp
    ring
  · show 4 * (E * Iz) / L = zBendingBlockSpec (E * Iz / L ^ 3) L 3 3
    simp only [zBendingBlockSpec, yBendingBlockSpec, Matrix.smul_apply, Matrix.of_apply,
      Matrix.cons_val', Matrix.cons_val_zero, Matrix.cons_val_one, Matrix.head_cons,
      Matrix.empty_val', Matrix.cons_val_fin_one, Matrix.head_fin_const, Matrix.cons_val_two,
      Matrix.cons_val_three, Matrix.tail_cons, smul_eq_mul]
    field_simp
    ring

/-- The transformed element matrix `Tᵀ k_local T` is symmetric because the
local stiffness matrix is. -/
theorem k_global_transpose (m : Member) (a b : Node) :
    Matrix.transpose (k_global m a b) = k_global m a b := by
  unfold k_global
  rw [Matrix.transpose_mul, Matrix.transpose_mul, Matrix.transpose_transpose,
    local_stiffness_transpose, Matrix.mul_assoc]

/-- One member's total deposit at `(p, q)` equals its deposit at `(q, p)`:
the element matrix is symmetric, so the pruning filter and values agree. -/
theorem memberContribution_symm (nodes : List Node) (m : Member) (p q : ℕ) :
    memberContribution nodes m p q = memberContribution nodes m q p := by
  unfold memberContribution
  cases ha : dictGet nodes m.startNodeId with
  | none => rfl
  | some a =>
    cases hb : dictGet nodes m.endNodeId with
    | none => rfl
    | some b =>
      by_cases hlen : get_member_length a b < 1e-10
      · simp only [if_pos hlen]
      · simp only [if_neg hlen]
        conv_rhs => rw [Finset.sum_comm]
        refine Finset.sum_congr rfl fun i _ => Finset.sum_congr rfl fun j _ => ?_
        have hsym : k_global m a b j i = k_global m a b i j :=
          congrFun (congrFun (k_global_transpose m a b) i) j
        rw [hsym]
        exact if_congr (by tauto) rfl rfl

/-- C2: the assembled global stiffness matrix (COO triplets summed at CSR
conversion) is symmetric: `K[p,q] = K[q,p]` for every pair of global DOF
indices.  This holds for every model, in particular for every valid one. -/
theorem claim_c2 (nodes : List Node) (members : List Member) (p q : ℕ) :
    assembleK nodes members p q = assembleK nodes members q p := by
  unfold assembleK
  induction members with
  | nil => rfl
  | cons m rest ih =>
      simp only [List.map_cons, List.sum_cons, ih, memberContribution_symm nodes m p q]

/-- C1 witness: the hypotheses hold at the concrete input `L = 1` (all
properties 1). -/
theorem claim_c1_witness :
    (0 : ℝ) < 1 ∧
      (get_local_stiffness_matrix 1 1 1 1 1 1 1 = localStiffnessSpec 1 1 1 1 1 1 1 ∧
        Matrix.transpose (get_local_stiffness_matrix 1 1 1 1 1 1 1) =
          get_local_stiffness_matrix 1 1 1 1 1 1 1) :=
  ⟨by norm_num, claim_c1 1 1 1 1 1 1 1 (by norm_num)⟩

/-- C5: the direct SuperLU path is chosen iff the free-DOF count is at most
`10⁴` and iterative solving has not been requested (the flag `solve`
receives); `use_iterative = true` forces CG regardless of size; a node count
over 2000 forces CG via the flag adjustment in `main`. -/
theorem claim_c5 (config : Bool) (numNodes numFree : ℕ) :
    (uses_iterative (effective_use_iterative config numNodes) numFree = false ↔
      numFree ≤ 10000 ∧ effective_use_iterative config numNodes = false) ∧
    uses_iterative true numFree = true ∧
    (2000 < numNodes →
      uses_iterative (effective_use_iterative config numNodes) numFree = true) := by
  cases config <;> by_cases h2 : 2000 < numNodes <;> by_cases hf : 10000 < numFree <;>
    simp [uses_iterative, effective_use_iterative, h2, hf] <;> omega

/-- C5 witness: at 2001 nodes the CG path is forced even though the config
flag is off and only 5 DOFs are free. -/
theorem claim_c5_witness :
    2000 < 2001 ∧ uses_iterative (effective_use_iterative false 2001) 5 = true :=
  ⟨by norm_num, (claim_c5 false 2001 5).2.2 (by norm_num)⟩

/-- C6: when DOF partitioning leaves no free DOF, `solve` reports the
structure-fully-constrained error and terminates without attempting a linear
solve or producing a result. -/
theorem claim_c6 (nodes : List Node) (members : List Member)
    (supports : List Support) (loads : List Load) (flag : Bool) (cg : CGOutcome)
    (h : (identify_dofs nodes supports).1 = []) :
    solveModel nodes members supports loads flag cg =
      Except.error SolveError.fullyConstrained := by
  simp [solveModel, h]

/-- C6 witness: a single fully fixed node has no free DOFs and the solver
errors out on it. -/
theorem claim_c6_witness :
    (identify_dofs [wNode0] [wSupportFixed]).1 = [] ∧
    solveModel [wNode0] [] [wSupportFixed] [] false wCGConv =
      Except.error SolveError.fullyConstrained :=
  ⟨rfl, claim_c6 [wNode0] [] [wSupportFixed] [] false wCGConv rfl⟩

/-- C7 counterexample: on a concrete model, with the cg call returning
`info = 2000` (iteration limit reached without convergence), the solver does
NOT halt: it returns an `ok` result whose top-level `success` flag is `true`,
contradicting the claim that a non-convergent solve halts with an error and
no numerical result. -/
theorem claim_c7_counterexample :
    wCGFail.info ≠ 0 ∧
    solveModel [wNode0, wNode1] [wMember] [wSupportFixed, wSupportAxial] [wLoad1]
        true wCGFail =
      Except.ok (iterativeResult [wNode0, wNode1] [wMember]
        [wSupportFixed, wSupportAxial] [wLoad1] wCGFail) ∧
    (iterativeResult [wNode0, wNode1] [wMember] [wSupportFixed, wSupportAxial]
        [wLoad1] wCGFail).success = true :=
  ⟨by decide, rfl, rfl⟩

/-- C7 (amended): when the cg call returns without converging
(`info ≠ 0`), the solver does not halt: it returns the iterate as an `ok`
result whose top-level `success` is `true` and whose solver-info records the
iteration count and `converged = success = false`.  No residual norm is
reported.  (Only an exception raised inside the cg call would halt.) -/
theorem claim_c7 (nodes : List Node) (members : List Member)
    (supports : List Support) (loads : List Load) (cg : CGOutcome)
    (hfree : (identify_dofs nodes supports).1 ≠ [])
    (hinfo : cg.info ≠ 0) :
    solveModel nodes members supports loads true cg =
      Except.ok (iterativeResult nodes members supports loads cg) ∧
    (iterativeResult nodes members supports loads cg).success = true ∧
    (iterativeResult nodes members supports loads cg).solverInfo =
      SolverInfo.cg false cg.iterations false := by
  refine ⟨by simp [solveModel, hfree, uses_iterative], rfl, ?_⟩
  simp [iterativeResult, hinfo]

/-- C7 witness: the amended statement holds on the concrete two-node model
with the non-converged cg outcome. -/
theorem claim_c7_witness :
    (identify_dofs [wNode0, wNode1] [wSupportFixed, wSupportAxial]).1 ≠ [] ∧
    wCGFail.info ≠ 0 ∧
    (solveModel [wNode0, wNode1] [wMember] [wSupportFixed, wSupportAxial] [wLoad2]
        true wCGFail =
      Except.ok (iterativeResult [wNode0, wNode1] [wMember]
        [wSupportFixed, wSupportAxial] [wLoad2] wCGFail) ∧
    (iterativeResult [wNode0, wNode1] [wMember] [wSupportFixed, wSupportAxial]
        [wLoad2] wCGFail).success = true ∧
    (iterativeResult [wNode0, wNode1] [wMember] [wSupportFixed, wSupportAxial]
        [wLoad2] wCGFail).solverInfo = SolverInfo.cg false wCGFail.iterations false) :=
  ⟨by decide, by decide,
    claim_c7 [wNode0, wNode1] [wMember] [wSupportFixed, wSupportAxial] [wLoad2]
      wCGFail (by decide) (by decide)⟩

/-- C8 counterexample: a concrete model containing a member whose start node
id `"nx"` resolves to no node still solves to an `ok` result — the pipeline
does not halt with a topology error. -/
theorem claim_c8_counterexample :
    dictGet [wNode0, wNode1] wBadMember.startNodeId = none ∧
    isOkE (solveModel [wNode0, wNode1] [wMember, wBadMember]
      [wSupportFixed, wSupportAxial] [wLoad1] false wCGConv) = true :=
  ⟨rfl, rfl⟩

/-- C8 (amended): a member whose start or end node id does not resolve is
silently skipped: it deposits nothing into the global stiffness, the
assembled matrix equals that of the model without the member, and the
pipeline result is unchanged — no topology error is raised. -/
theorem claim_c8 (nodes : List Node) (pre post : List Member) (m : Member)
    (supports : List Support) (loads : List Load) (flag : Bool) (cg : CGOutcome)
    (hbad : dictGet nodes m.startNodeId = none ∨ dictGet nodes m.endNodeId = none) :
    (∀ p q, memberContribution nodes m p q = 0) ∧
    (∀ p q, assembleK nodes (pre ++ m :: post) p q = assembleK nodes (pre ++ post) p q) ∧
    solveModel nodes (pre ++ m :: post) supports loads flag cg =
      solveModel nodes (pre ++ post) supports loads flag cg := by
  have hzero : ∀ p q, memberContribution nodes m p q = 0 := by
    intro p q
    unfold memberContribution
    rcases hbad with h | h
    · rw [h]
    · rw [h]
      cases dictGet nodes m.startNodeId <;> rfl
  have hKpq : ∀ p q,
      assembleK nodes (pre ++ m :: post) p q = assembleK nodes (pre ++ post) p q := by
    intro p q
    unfold assembleK
    rw [List.map_append, List.map_append, List.map_cons, List.sum_append,
      List.sum_append, List.sum_cons, hzero, zero_add]
  have hK : assembleK nodes (pre ++ m :: post) = assembleK nodes (pre ++ post) := by
    funext p q
    exact hKpq p q
  refine ⟨hzero, hKpq, ?_⟩
  have hIter : iterativeResult nodes (pre ++ m :: post) supports loads cg =
      iterativeResult nodes (pre ++ post) supports loads cg := by
    unfold iterativeResult reactionsOf
    rw [hK]
  have hDirect : directResult nodes (pre ++ m :: post) supports loads =
      directResult nodes (pre ++ post) supports loads := by
    unfold directResult reactionsOf reducedK
    rw [hK]
  unfold solveModel
  rw [hIter, hDirect]

/-- C8 witness: the amended statement holds on the concrete model with the
unresolvable member. -/
theorem claim_c8_witness :
    dictGet [wNode0, wNode1] wBadMember.startNodeId = none ∧
    ((∀ p q, memberContribution [wNode0, wNode1] wBadMember p q = 0) ∧
      (∀ p q, assembleK [wNode0, wNode1] ([wMember] ++ wBadMember :: []) p q =
        assembleK [wNode0, wNode1] ([wMember] ++ []) p q) ∧
      solveModel [wNode0, wNode1] ([wMember] ++ wBadMember :: [])
          [wSupportFixed, wSupportAxial] [wLoad1] false wCGConv =
        solveModel [wNode0, wNode1] ([wMember] ++ [])
          [wSupportFixed, wSupportAxial] [wLoad1] false wCGConv) :=
  ⟨rfl, claim_c8 [wNode0, wNode1] [wMember] [] wBadMember
    [wSupportFixed, wSupportAxial] [wLoad1] false wCGConv (Or.inl rfl)⟩

/-- The last-match fold returns its accumulator when nothing matches. -/
theorem assocLast_foldl_no_match {α : Type} (key : α → String) (l : List α)
    (k : String) (acc : Option α) (h : ∀ x ∈ l, key x ≠ k) :
    l.foldl (fun acc x => if key x = k then some x else acc) acc = acc := by
  induction l generalizing acc with
  | nil => rfl
  | cons y ys ih =>
      rw [List.foldl_cons, if_neg (h y (List.mem_cons_self y ys))]
      exact ih acc fun x hx => h x (List.mem_cons_of_mem y hx)

/-- With duplicate-free keys, the last-match fold returns the unique matching
element, whatever the accumulator. -/
theorem assocLast_foldl_match {α : Type} (key : α → String) (k : String) (s : α)
    (hk : key s = k) :
    ∀ l : List α, (l.map key).Nodup → s ∈ l →
      ∀ acc, l.foldl (fun acc x => if key x = k then some x else acc) acc = some s := by
  intro l
  induction l with
  | nil => intro _ hs; cases hs
  | cons y ys ih =>
      intro hnd hs acc
      rw [List.map_cons, List.nodup_cons] at hnd
      rw [List.foldl_cons]
      rcases List.mem_cons.mp hs with rfl | hmem
      · rw [if_pos hk]
        refine assocLast_foldl_no_match key ys k _ fun x hx hkx => ?_
        have h1 : key x ∈ ys.map key := List.mem_map_of_mem key hx
        rw [hkx, ← hk] at h1
        exact hnd.1 h1
      · by_cases hky : key y = k
        · exfalso
          have h1 : key s ∈ ys.map key := List.mem_map_of_mem key hmem
          rw [hk, ← hky] at h1
          exact hnd.1 h1
        · rw [if_neg hky]
          exact ih hnd.2 hmem acc

/-- Whatever the last-match fold returns came from the list (unless it is the
accumulator itself). -/
theorem assocLast_foldl_result {α : Type} (key : α → String) (k : String) :
    ∀ (l : List α) (acc : Option α) (s : α),
      l.foldl (fun acc x => if key x = k then some x else acc) acc = some s →
      (s ∈ l ∧ key s = k) ∨ acc = some s := by
  intro l
  induction l with
  | nil => intro acc s h; exact Or.inr h
  | cons y ys ih =>
      intro acc s h
      rw [List.foldl_cons] at h
      rcases ih _ s h with ⟨hmem, hks⟩ | hacc
      · exact Or.inl ⟨List.mem_cons_of_mem y hmem, hks⟩
      · by_cases hky : key y = k
        · rw [if_pos hky] at hacc
          obtain rfl : y = s := by injection hacc
          exact Or.inl ⟨List.mem_cons_self y ys, hky⟩
        · rw [if_neg hky] at hacc
          exact Or.inr hacc

/-- With duplicate-free support node ids, the support dictionary lookup
returns `s` exactly when `s` is the record for that node id. -/
theorem supportsGet_eq_some_iff (supports : List Support)
    (hnd : (supports.map Support.nodeId).Nodup) (nid : String) (s : Support) :
    supportsGet supports nid = some s ↔ s ∈ supports ∧ s.nodeId = nid := by
  constructor
  · intro h
    rcases assocLast_foldl_result Support.nodeId nid supports none s h with hr | hr
    · exact hr
    · cases hr
  · rintro ⟨hmem, hid⟩
    exact assocLast_foldl_match Support.nodeId nid s hid supports hnd hmem none

/-- Membership in the free part of a node's DOF split. -/
theorem splitDofs_fst_mem (base : ℕ) :
    ∀ (flags : List Bool) (i0 d : ℕ),
      d ∈ (splitDofs base flags i0).1 ↔
        ∃ j : ℕ, ∃ h : j < flags.length,
          flags.get ⟨j, h⟩ = false ∧ d = base + i0 + j := by
  intro flags
  induction flags with
  | nil => intro i0 d; simp [splitDofs]
  | cons c rest ih =>
      intro i0 d
      cases c with
      | false =>
          rw [show (splitDofs base (false :: rest) i0).1 =
            (base + i0) :: (splitDofs base rest (i0 + 1)).1 from rfl]
          rw [List.mem_cons, ih (i0 + 1) d]
          constructor
          · rintro (rfl | ⟨j, hj, hget, rfl⟩)
            · exact ⟨0, by simp only [List.length_cons]; omega, rfl, by omega⟩
            · exact ⟨j + 1, by simp only [List.length_cons]; omega, hget, by omega⟩
          · rintro ⟨j, hj, hget, rfl⟩
            cases j with
            | zero => exact Or.inl (by omega)
            | succ j' => exact Or.inr ⟨j', by simp only [List.length_cons] at hj; omega, hget, by omega⟩
      | true =>
          rw [show (splitDofs base (true :: rest) i0).1 =
            (splitDofs base rest (i0 + 1)).1 from rfl]
          rw [ih (i0 + 1) d]
          constructor
          · rintro ⟨j, hj, hget, rfl⟩
            exact ⟨j + 1, by simp only [List.length_cons]; omega, hget, by omega⟩
          · rintro ⟨j, hj, hget, rfl⟩
            cases j with
            | zero => simp at hget
            | succ j' => exact ⟨j', by simp only [List.length_cons] at hj; omega, hget, by omega⟩

/-- Membership in the constrained part of a node's DOF split. -/
theorem splitDofs_snd_mem (base : ℕ) :
    ∀ (flags : List Bool) (i0 d : ℕ),
      d ∈ (splitDofs base flags i0).2 ↔
        ∃ j : ℕ, ∃ h : j < flags.length,
          flags.get ⟨j, h⟩ = true ∧ d = base + i0 + j := by
  intro flags
  induction flags with
  | nil => intro i0 d; simp [splitDofs]
  | cons c rest ih =>
      intro i0 d
      cases c with
      | true =>
          rw [show (splitDofs base (true :: rest) i0).2 =
            (base + i0) :: (splitDofs base rest (i0 + 1)).2 from rfl]
          rw [List.mem_cons, ih (i0 + 1) d]
          constructor
          · rintro (rfl | ⟨j, hj, hget, rfl⟩)
            · exact ⟨0, by simp only [List.length_cons]; omega, rfl, by omega⟩
            · exact ⟨j + 1, by simp only [List.length_cons]; omega, hget, by omega⟩
          · rintro ⟨j, hj, hget, rfl⟩
            cases j with
            | zero => exact Or.inl (by omega)
            | succ j' => exact Or.inr ⟨j', by simp only [List.length_cons] at hj; omega, hget, by omega⟩
      | false =>
          rw [show (splitDofs base (false :: rest) i0).2 =
            (splitDofs base rest (i0 + 1)).2 from rfl]
          rw [ih (i0 + 1) d]
          constructor
          · rintro ⟨j, hj, hget, rfl⟩
            exact ⟨j + 1, by simp only [List.length_cons]; omega, hget, by omega⟩
          · rintro ⟨j, hj, hget, rfl⟩
            cases j with
            | zero => simp at hget
            | succ j' => exact ⟨j', by simp only [List.length_cons] at hj; omega, hget, by omega⟩

/-- Elements of the free split stay in the node's half-open DOF window. -/
theorem splitDofs_fst_bounds (base : ℕ) (flags : List Bool) (i0 d : ℕ)
    (hd : d ∈ (splitDofs base flags i0).1) :
    base + i0 ≤ d ∧ d < base + i0 + flags.length := by
  rw [splitDofs_fst_mem] at hd
  obtain ⟨j, hj, _, rfl⟩ := hd
  omega

/-- Elements of the constrained split stay in the node's DOF window. -/
theorem splitDofs_snd_bounds (base : ℕ) (flags : List Bool) (i0 d : ℕ)
    (hd : d ∈ (splitDofs base flags i0).2) :
    base + i0 ≤ d ∧ d < base + i0 + flags.length := by
  rw [splitDofs_snd_mem] at hd
  obtain ⟨j, hj, _, rfl⟩ := hd
  omega

/-- The free split is strictly sorted. -/
theorem splitDofs_fst_sorted (base : ℕ) :
    ∀ (flags : List Bool) (i0 : ℕ), ((splitDofs base flags i0).1).Sorted (· < ·) := by
  intro flags
  induction flags with
  | nil => intro i0; simp [splitDofs]
  | cons c rest ih =>
      intro i0
      cases c with
      | true => exact ih (i0 + 1)
      | false =>
          rw [show (splitDofs base (false :: rest) i0).1 =
            (base + i0) :: (splitDofs base rest (i0 + 1)).1 from rfl]
          refine List.sorted_cons.mpr ⟨?_, ih (i0 + 1)⟩
          intro b hb
          have := splitDofs_fst_bounds base rest (i0 + 1) b hb
          omega

/-- The constrained split is strictly sorted. -/
theorem splitDofs_snd_sorted (base : ℕ) :
    ∀ (flags : List Bool) (i0 : ℕ), ((splitDofs base flags i0).2).Sorted (· < ·) := by
  intro flags
  induction flags with
  | nil => intro i0; simp [splitDofs]
  | cons c rest ih =>
      intro i0
      cases c with
      | false => exact ih (i0 + 1)
      | true =>
          rw [show (splitDofs base (true :: rest) i0).2 =
            (base + i0) :: (splitDofs base rest (i0 + 1)).2 from rfl]
          refine List.sorted_cons.mpr ⟨?_, ih (i0 + 1)⟩
          intro b hb
          have := splitDofs_snd_bounds base rest (i0 + 1) b hb
          omega

/-- Reading the flag list at offset `j` is the `restraint` flag. -/
theorem restraintList_get (s : Support) (j : ℕ) (h : j < 6) :
    (restraintList s).get ⟨j, h⟩ = restraint s ⟨j, h⟩ := by
  interval_cases j <;> rfl

/-- Membership in a node's free-DOF contribution. -/
theorem mem_nodeFreeDofs (supports : List Support) (nd : Node) (d : ℕ) :
    d ∈ nodeFreeDofs supports nd ↔
      ∃ i : Fin 6, d = nd.index * 6 + (i : ℕ) ∧
        ∀ s, supportsGet supports nd.id = some s → restraint s i = false := by
  unfold nodeFreeDofs
  cases hs : supportsGet supports nd.id with
  | none =>
      simp only [List.mem_map, List.mem_range]
      constructor
      · rintro ⟨i, hi, rfl⟩
        exact ⟨⟨i, hi⟩, rfl, fun s h => by cases h⟩
      · rintro ⟨i, rfl, _⟩
        exact ⟨(i : ℕ), i.isLt, rfl⟩
  | some s0 =>
      rw [splitDofs_fst_mem]
      constructor
      · rintro ⟨j, hj, hget, rfl⟩
        have hj6 : j < 6 := by simpa [restraintList] using hj
        refine ⟨⟨j, hj6⟩, by simp only [Fin.val_mk]; omega, ?_⟩
        intro s h
        injection h with h
        subst h
        have hg := restraintList_get s0 j hj6
        rw [hg] at hget
        exact hget
      · rintro ⟨i, rfl, hflag⟩
        refine ⟨(i : ℕ), by simpa [restraintList] using i.isLt, ?_, by omega⟩
        have hg := restraintList_get s0 (i : ℕ) i.isLt
        rw [hg]
        exact hflag s0 rfl

/-- Membership in a node's constrained-DOF contribution. -/
theorem mem_nodeConsDofs (supports : List Support) (nd : Node) (d : ℕ) :
    d ∈ nodeConsDofs supports nd ↔
      ∃ i : Fin 6, d = nd.index * 6 + (i : ℕ) ∧
        ∃ s, supportsGet supports nd.id = some s ∧ restraint s i = true := by
  unfold nodeConsDofs
  cases hs : supportsGet supports nd.id with
  | none =>
      simp only [List.not_mem_nil, false_iff]
      rintro ⟨i, _, s, h, _⟩
      cases h
  | some s0 =>
      rw [splitDofs_snd_mem]
      constructor
      · rintro ⟨j, hj, hget, rfl⟩
        have hj6 : j < 6 := by simpa [restraintList] using hj
        refine ⟨⟨j, hj6⟩, by simp only [Fin.val_mk]; omega, s0, rfl, ?_⟩
        have hg := restraintList_get s0 j hj6
        rw [hg] at hget
        exact hget
      · rintro ⟨i, rfl, s, h, hflag⟩
        injection h with h
        subst h
        refine ⟨(i : ℕ), by simpa [restraintList] using i.isLt, ?_, by omega⟩
        have hg := restraintList_get s0 (i : ℕ) i.isLt
        rw [hg]
        exact hflag

/-- A node's free DOFs lie in its six-DOF window. -/
theorem nodeFreeDofs_bounds (supports : List Support) (nd : Node) (d : ℕ)
    (h : d ∈ nodeFreeDofs supports nd) :
    nd.index * 6 ≤ d ∧ d < nd.index * 6 + 6 := by
  rw [mem_nodeFreeDofs] at h
  obtain ⟨i, rfl, _⟩ := h
  have := i.isLt
  omega

/-- A node's constrained DOFs lie in its six-DOF window. -/
theorem nodeConsDofs_bounds (supports : List Support) (nd : Node) (d : ℕ)
    (h : d ∈ nodeConsDofs supports nd) :
    nd.index * 6 ≤ d ∧ d < nd.index * 6 + 6 := by
  rw [mem_nodeConsDofs] at h
  obtain ⟨i, rfl, _⟩ := h
  have := i.isLt
  omega

/-- A node's free-DOF contribution is strictly sorted. -/
theorem nodeFreeDofs_sorted (supports : List Support) (nd : Node) :
    (nodeFreeDofs supports nd).Sorted (· < ·) := by
  unfold nodeFreeDofs
  cases supportsGet supports nd.id with
  | none =>
      show ((List.range 6).map fun i => nd.index * 6 + i).Pairwise (· < ·)
      rw [List.pairwise_map]
      exact List.Pairwise.imp (fun h => by omega) (List.sorted_lt_range 6)
  | some s => exact splitDofs_fst_sorted _ _ _

/-- A node's constrained-DOF contribution is strictly sorted. -/
theorem nodeConsDofs_sorted (supports : List Support) (nd : Node) :
    (nodeConsDofs supports nd).Sorted (· < ·) := by
  unfold nodeConsDofs
  cases supportsGet supports nd.id with
  | none => exact List.sorted_nil
  | some s => exact splitDofs_snd_sorted _ _ _


/-- Concatenating per-node DOF segments over nodes with increasing indices
yields a strictly sorted list, provided each segment is sorted and stays in
its node's window. -/
theorem flatMap_dofs_sorted (f : Node → List ℕ)
    (hb : ∀ nd d, d ∈ f nd → nd.index * 6 ≤ d ∧ d < nd.index * 6 + 6)
    (hs : ∀ nd, (f nd).Sorted (· < ·)) :
    ∀ nodes : List Node, (nodes.Pairwise fun a b => a.index < b.index) →
      (nodes.flatMap f).Sorted (· < ·) := by
  intro nodes
  induction nodes with
  | nil => intro _; simp
  | cons nd rest ih =>
      intro hp
      rw [List.flatMap_cons]
      show (f nd ++ rest.flatMap f).Pairwise (· < ·)
      rw [List.pairwise_append]
      obtain ⟨h1, h2⟩ := List.pairwise_cons.mp hp
      refine ⟨hs nd, ih h2, ?_⟩
      intro a ha b hbm
      obtain ⟨nd', hnd', hb3⟩ := List.mem_flatMap.mp hbm
      have ha' := (hb nd a ha).2
      have hb' := (hb nd' b hb3).1
      have := h1 nd' hnd'
      omega

/-- C9: for nodes indexed `0..N-1` in input order and duplicate-free support
records, `_identify_dofs` returns two strictly ascending lists that
partition the global DOF set `{0, …, 6N−1}`; a DOF is constrained exactly
when its node has a support record whose corresponding restraint flag is
true, and a node without a support record contributes all six DOFs to the
free list. -/
theorem claim_c9 (nodes : List Node) (supports : List Support)
    (hidx : nodes.map Node.index = List.range nodes.length)
    (hnd : (supports.map Support.nodeId).Nodup) :
    ((identify_dofs nodes supports).1).Sorted (· < ·) ∧
    ((identify_dofs nodes supports).2).Sorted (· < ·) ∧
    (∀ d, d < 6 * nodes.length ↔
      (d ∈ (identify_dofs nodes supports).1 ∨ d ∈ (identify_dofs nodes supports).2)) ∧
    (∀ d, ¬(d ∈ (identify_dofs nodes supports).1 ∧ d ∈ (identify_dofs nodes supports).2)) ∧
    (∀ d, d ∈ (identify_dofs nodes supports).2 ↔
      ∃ nd ∈ nodes, ∃ s ∈ supports, s.nodeId = nd.id ∧
        ∃ i : Fin 6, d = nd.index * 6 + (i : ℕ) ∧ restraint s i = true) ∧
    (∀ nd ∈ nodes, (∀ s ∈ supports, s.nodeId ≠ nd.id) →
      ∀ i : Fin 6, nd.index * 6 + (i : ℕ) ∈ (identify_dofs nodes supports).1) := by
  have hpair : nodes.Pairwise fun a b => a.index < b.index := by
    have h1 : (nodes.map Node.index).Pairwise (· < ·) := by
      rw [hidx]
      exact List.sorted_lt_range _
    exact List.pairwise_map.mp h1
  have hinj : ∀ n1 ∈ nodes, ∀ n2 ∈ nodes, n1.index = n2.index → n1 = n2 :=
    fun n1 hm1 n2 hm2 h =>
      List.inj_on_of_nodup_map (hidx ▸ List.nodup_range _) hm1 hm2 h
  have hidxlt : ∀ nd ∈ nodes, nd.index < nodes.length := by
    intro nd hmem
    have h1 : nd.index ∈ nodes.map Node.index := List.mem_map_of_mem _ hmem
    rw [hidx] at h1
    exact List.mem_range.mp h1
  have hat : ∀ p, p < nodes.length → ∃ nd ∈ nodes, nd.index = p := by
    intro p hp
    have h := congrArg (fun l => l[p]?) hidx
    simp only [List.getElem?_map, List.getElem?_range hp] at h
    cases hn : nodes[p]? with
    | none => rw [hn] at h; simp at h
    | some nd =>
        rw [hn] at h
        simp at h
        exact ⟨nd, List.getElem?_mem hn, h⟩
  have hfree : ∀ d, d ∈ (identify_dofs nodes supports).1 ↔
      ∃ nd ∈ nodes, d ∈ nodeFreeDofs supports nd := fun d => List.mem_flatMap
  have hcons : ∀ d, d ∈ (identify_dofs nodes supports).2 ↔
      ∃ nd ∈ nodes, d ∈ nodeConsDofs supports nd := fun d => List.mem_flatMap
  refine ⟨?_, ?_, ?_, ?_, ?_, ?_⟩
  · exact flatMap_dofs_sorted _ (nodeFreeDofs_bounds supports)
      (nodeFreeDofs_sorted supports) nodes hpair
  · exact flatMap_dofs_sorted _ (nodeConsDofs_bounds supports)
      (nodeConsDofs_sorted supports) nodes hpair
  · intro d
    constructor
    · intro hd
      obtain ⟨nd, hmem, hidxnd⟩ := hat (d / 6) (by omega)
      have hiLt : d % 6 < 6 := Nat.mod_lt _ (by norm_num)
      have hd6 : d = nd.index * 6 + ((⟨d % 6, hiLt⟩ : Fin 6) : ℕ) := by
        show d = nd.index * 6 + d % 6
        rw [hidxnd]
        omega
      cases hsup : supportsGet supports nd.id with
      | none =>
          left
          exact (hfree d).mpr ⟨nd, hmem, (mem_nodeFreeDofs supports nd d).mpr
            ⟨⟨d % 6, hiLt⟩, hd6, fun s h => by rw [hsup] at h; cases h⟩⟩
      | some s =>
          cases hflag : restraint s ⟨d % 6, hiLt⟩ with
          | false =>
              left
              refine (hfree d).mpr ⟨nd, hmem, (mem_nodeFreeDofs supports nd d).mpr
                ⟨⟨d % 6, hiLt⟩, hd6, fun s' h' => ?_⟩⟩
              rw [hsup] at h'
              injection h' with h'
              subst h'
              exact hflag
          | true =>
              right
              exact (hcons d).mpr ⟨nd, hmem, (mem_nodeConsDofs supports nd d).mpr
                ⟨⟨d % 6, hiLt⟩, hd6, s, hsup, hflag⟩⟩
    · intro hd
      rcases hd with h | h
      · obtain ⟨nd, hmem, hdm⟩ := (hfree d).mp h
        have h1 := nodeFreeDofs_bounds supports nd d hdm
        have h2 := hidxlt nd hmem
        omega
      · obtain ⟨nd, hmem, hdm⟩ := (hcons d).mp h
        have h1 := nodeConsDofs_bounds supports nd d hdm
        have h2 := hidxlt nd hmem
        omega
  · rintro d ⟨h1, h2⟩
    obtain ⟨nd1, hm1, hf⟩ := (hfree d).mp h1
    obtain ⟨nd2, hm2, hc⟩ := (hcons d).mp h2
    rw [mem_nodeFreeDofs] at hf
    rw [mem_nodeConsDofs] at hc
    obtain ⟨i1, hd1, hfl⟩ := hf
    obtain ⟨i2, hd2, s2, hs2, hr2⟩ := hc
    have hi1 := i1.isLt
    have hi2 := i2.isLt
    have heq : nd1.index = nd2.index := by omega
    obtain rfl : nd1 = nd2 := hinj nd1 hm1 nd2 hm2 heq

    have hii : i1 = i2 := Fin.ext (by omega)
    subst hii
    have hx := hfl s2 hs2
    rw [hx] at hr2
    cases hr2
  · intro d
    rw [hcons d]
    constructor
    · rintro ⟨nd, hm, hc⟩
      rw [mem_nodeConsDofs] at hc
      obtain ⟨i, hdi, s, hs, hr⟩ := hc
      have hss := (supportsGet_eq_some_iff supports hnd nd.id s).mp hs
      exact ⟨nd, hm, s, hss.1, hss.2, i, hdi, hr⟩
    · rintro ⟨nd, hm, s, hsm, hsid, i, hdi, hr⟩
      have hs : supportsGet supports nd.id = some s :=
        (supportsGet_eq_some_iff supports hnd nd.id s).mpr ⟨hsm, hsid⟩
      exact ⟨nd, hm, (mem_nodeConsDofs supports nd d).mpr ⟨i, hdi, s, hs, hr⟩⟩
  · intro nd hm hnone i
    have hs : supportsGet supports nd.id = none :=
      assocLast_foldl_no_match Support.nodeId supports nd.id none hnone
    exact (hfree _).mpr ⟨nd, hm, (mem_nodeFreeDofs supports nd _).mpr
      ⟨i, rfl, fun s h => by rw [hs] at h; cases h⟩⟩

/-- C9 witness: the hypotheses and conclusion hold on the concrete two-node
model. -/
theorem claim_c9_witness :
    ([wNode0, wNode1].map Node.index = List.range 2) ∧
    (([wSupportFixed, wSupportAxial].map Support.nodeId).Nodup) ∧
    (((identify_dofs [wNode0, wNode1] [wSupportFixed, wSupportAxial]).1).Sorted
      (· < ·)) :=
  ⟨by decide, by decide,
    (claim_c9 [wNode0, wNode1] [wSupportFixed, wSupportAxial]
      (by decide) (by decide)).1⟩

/-- Applying a load whose node resolves writes exactly its six components at
the node's six DOF slots. -/
theorem applyLoad_at (nodes : List Node) (F : ℕ → ℝ) (l : Load) (nd : Node)
    (h : dictGet nodes l.nodeId = some nd) (i : Fin 6) :
    applyLoad nodes F l (nd.index * 6 + (i : ℕ)) = loadComponent l i := by
  unfold applyLoad
  rw [h]
  fin_cases i <;>
    · show (if _ then _ else _) = _
      simp only [Fin.isValue, Fin.val_zero, Fin.val_one, Fin.val_two, Fin.val_mk]
      split_ifs <;> first | rfl | omega

/-- Applying a load touches only the six DOF slots of its resolved node. -/
theorem applyLoad_other (nodes : List Node) (F : ℕ → ℝ) (l : Load) (d : ℕ)
    (h : ∀ nd, dictGet nodes l.nodeId = some nd →
      ∀ i : Fin 6, d ≠ nd.index * 6 + (i : ℕ)) :
    applyLoad nodes F l d = F d := by
  unfold applyLoad
  cases hdg : dictGet nodes l.nodeId with
  | none => rfl
  | some nd =>
      have h0 := h nd hdg 0
      have h1 := h nd hdg 1
      have h2 := h nd hdg 2
      have h3 := h nd hdg 3
      have h4 := h nd hdg 4
      have h5 := h nd hdg 5
      simp only [Fin.isValue, Fin.val_zero, Fin.val_one] at h0 h1 h2 h3 h4 h5
      show (if _ then _ else _) = _
      split_ifs <;> first | rfl | omega

/-- Loads referencing nodes with a different index never overwrite this
node's slots during the fold. -/
theorem foldl_force_preserve (nodes : List Node) (nd : Node) (i : Fin 6) :
    ∀ (post : List Load),
      (∀ l' ∈ post, ∀ nd', dictGet nodes l'.nodeId = some nd' →
        nd'.index ≠ nd.index) →
      ∀ F : ℕ → ℝ,
        (post.foldl (applyLoad nodes) F) (nd.index * 6 + (i : ℕ)) =
          F (nd.index * 6 + (i : ℕ)) := by
  intro post
  induction post with
  | nil => intro _ F; rfl
  | cons l' rest ih =>
      intro hpost F
      rw [List.foldl_cons]
      rw [ih (fun x hx => hpost x (List.mem_cons_of_mem l' hx))]
      refine applyLoad_other nodes F l' _ fun nd' hdg j => ?_
      have hne := hpost l' (List.mem_cons_self l' rest) nd' hdg
      have hi := i.isLt
      have hj := j.isLt
      omega

/-- C10: `_build_force_vector` assigns rather than accumulates.  For a load
list `pre ++ l :: post` in which no record after `l` resolves to `l`'s node,
the force vector at that node's six DOFs holds exactly `l`'s six components:
every earlier record at that node (in `pre`) is discarded, zero components
included. -/
theorem claim_c10 (nodes : List Node) (pre post : List Load) (l : Load)
    (nd : Node) (hres : dictGet nodes l.nodeId = some nd)
    (hpost : ∀ l' ∈ post, ∀ nd', dictGet nodes l'.nodeId = some nd' →
      nd'.index ≠ nd.index) :
    ∀ i : Fin 6,
      build_force_vector nodes (pre ++ l :: post) (nd.index * 6 + (i : ℕ)) =
        loadComponent l i := by
  intro i
  unfold build_force_vector
  rw [List.foldl_append, List.foldl_cons]
  rw [foldl_force_preserve nodes nd i post hpost]
  exact applyLoad_at nodes _ l nd hres i

/-- C10 witness: with two loads at node `n1`, the force vector keeps exactly
the last one's components. -/
theorem claim_c10_witness :
    dictGet [wNode0, wNode1] wLoad2.nodeId = some wNode1 ∧
    build_force_vector [wNode0, wNode1] ([wLoad1] ++ wLoad2 :: [])
        (wNode1.index * 6 + ((0 : Fin 6) : ℕ)) = loadComponent wLoad2 0 :=
  ⟨rfl, claim_c10 [wNode0, wNode1] [wLoad1] [] wLoad2 wNode1 rfl
    (fun l' hl' => by cases hl') 0⟩

/-- Applying the componentwise sum of two loads at the same node to a sum
vector is the sum of applying each separately. -/
theorem applyLoad_add (nodes : List Node) (F1 F2 : ℕ → ℝ) (l1 l2 : Load)
    (hid : l1.nodeId = l2.nodeId) (d : ℕ) :
    applyLoad nodes (fun e => F1 e + F2 e) (addLoad l1 l2) d =
      applyLoad nodes F1 l1 d + applyLoad nodes F2 l2 d := by
  simp only [applyLoad, addLoad]
  rw [← hid]
  cases hdg : dictGet nodes l1.nodeId with
  | none => rfl
  | some nd =>
      show (if _ then _ else _) = (if _ then _ else _) + (if _ then _ else _)
      split_ifs <;> rfl

/-- Folding the combined load list over a sum vector is the sum of the two
folds, provided the two lists reference the same nodes record by record. -/
theorem foldl_force_add (nodes : List Node) :
    ∀ (L1 L2 : List Load) (F1 F2 : ℕ → ℝ),
      L1.map Load.nodeId = L2.map Load.nodeId →
      ∀ d, ((combineLoads L1 L2).foldl (applyLoad nodes) (fun e => F1 e + F2 e)) d =
        (L1.foldl (applyLoad nodes) F1) d + (L2.foldl (applyLoad nodes) F2) d := by
  intro L1
  induction L1 with
  | nil =>
      intro L2 F1 F2 h d
      cases L2 with
      | nil => rfl
      | cons l2 r2 => simp at h
  | cons l1 r1 ih =>
      intro L2 F1 F2 h d
      cases L2 with
      | nil => simp at h
      | cons l2 r2 =>
          simp only [List.map_cons, List.cons.injEq] at h
          obtain ⟨hid, hrest⟩ := h
          rw [show combineLoads (l1 :: r1) (l2 :: r2) =
            addLoad l1 l2 :: combineLoads r1 r2 from rfl]
          rw [List.foldl_cons, List.foldl_cons, List.foldl_cons]
          have hstep : applyLoad nodes (fun e => F1 e + F2 e) (addLoad l1 l2) =
              fun e => applyLoad nodes F1 l1 e + applyLoad nodes F2 l2 e :=
            funext fun e => applyLoad_add nodes F1 F2 l1 l2 hid e
          rw [hstep]
          exact ih r2 _ _ hrest d

/-- The force vector of the combined load set is the sum of the two force
vectors. -/
theorem build_force_vector_add (nodes : List Node) (L1 L2 : List Load)
    (h : L1.map Load.nodeId = L2.map Load.nodeId) (d : ℕ) :
    build_force_vector nodes (combineLoads L1 L2) d =
      build_force_vector nodes L1 d + build_force_vector nodes L2 d := by
  unfold build_force_vector
  have h0 : (fun _ : ℕ => (0 : ℝ)) =
      fun e => (fun _ : ℕ => (0 : ℝ)) e + (fun _ : ℕ => (0 : ℝ)) e := by
    funext e
    norm_num
  conv_lhs => rw [h0]
  exact foldl_force_add nodes L1 L2 _ _ h d

/-- C3: superposition.  For a fixed set of nodes, members and supports with
an invertible reduced stiffness matrix, solving (direct path, exact linear
algebra) with the combined loads `L₁ + L₂` gives the sum of the displacement
vectors of the two separate solves — exactly, hence within every relative
tolerance. -/
theorem claim_c3 (nodes : List Node) (members : List Member)
    (supports : List Support) (L1 L2 : List Load)
    (hsame : L1.map Load.nodeId = L2.map Load.nodeId)
    (hinv : IsUnit (reducedK nodes members (identify_dofs nodes supports).1).det) :
    ∀ d, displacements_direct nodes members supports (combineLoads L1 L2) d =
      displacements_direct nodes members supports L1 d +
        displacements_direct nodes members supports L2 d := by
  intro d
  have hdd : ∀ loads, displacements_direct nodes members supports loads =
      scatter (identify_dofs nodes supports).1
        (solve_direct (reducedK nodes members (identify_dofs nodes supports).1)
          (reducedF nodes loads (identify_dofs nodes supports).1)) := fun _ => rfl
  rw [hdd, hdd, hdd]
  have hFred : reducedF nodes (combineLoads L1 L2) (identify_dofs nodes supports).1 =
      reducedF nodes L1 (identify_dofs nodes supports).1 +
        reducedF nodes L2 (identify_dofs nodes supports).1 := by
    funext i
    show build_force_vector nodes (combineLoads L1 L2) _ = _
    rw [build_force_vector_add nodes L1 L2 hsame]
    rfl
  unfold solve_direct
  rw [hFred, Matrix.mulVec_add]
  unfold scatter
  by_cases hd : d ∈ (identify_dofs nodes supports).1
  · rw [dif_pos hd, dif_pos hd, dif_pos hd]
    rfl
  · rw [dif_neg hd, dif_neg hd, dif_neg hd]
    norm_num


/-- The concrete test member from `n0` to `n1` has unit length. -/
theorem wLength_eval : get_member_length wNode0 wNode1 = 1 := by
  unfold get_member_length wNode0 wNode1
  norm_num

/-- For the unit member along the x-axis, with no effective roll, the
rotation matrix is the identity. -/
theorem wRotation_eval (beta : ℝ) (hb : ¬ (1e-10 : ℝ) < |beta|) :
    get_rotation_matrix wNode0 wNode1 beta = 1 := by
  have hL : get_member_length wNode0 wNode1 = 1 := wLength_eval
  have he : (1e-10 : ℝ) = (10000000000 : ℝ)⁻¹ := by norm_num
  rw [he] at hb
  ext i j
  fin_cases i <;> fin_cases j <;>
    · simp only [get_rotation_matrix, hL, Matrix.one_apply]
      norm_num [wNode0, wNode1]
      simp [hb, Matrix.vecHead, Matrix.vecTail]

/-- The 12×12 transformation built from the identity rotation is the
identity. -/
theorem wTransformation_eval :
    get_transformation_matrix 1 = (1 : Matrix (Fin 12) (Fin 12) ℝ) := by
  ext i j
  simp only [get_transformation_matrix, Matrix.of_apply, Matrix.one_apply]
  by_cases h : i = j
  · subst h
    simp
  · rw [if_neg h]
    split_ifs with h3 h4
    · exfalso
      rw [Fin.ext_iff] at h4
      simp only [Fin.val_mk] at h4
      exact h (Fin.ext (by omega))
    · rfl
    · rfl

/-- With node indices 0 and 1, the member DOF map is the identity on 0..11. -/
theorem wDofMap_eval (i : Fin 12) : dof_map wNode0 wNode1 i = (i : ℕ) := by
  have hi := i.isLt
  simp only [dof_map, wNode0, wNode1]
  split_ifs with h <;> omega

/-- The transformed element matrix of the concrete unit member is its local
stiffness matrix. -/
theorem wKglobal_eval : k_global wMember wNode0 wNode1 =
    get_local_stiffness_matrix 1 1 1 1 1 1 1 := by
  simp only [k_global, wRotation_eval wMember.beta (by norm_num [wMember]),
    wTransformation_eval, Matrix.transpose_one, one_mul, mul_one, wLength_eval]
  rfl

/-- Entry (6,6) of the unit-property local stiffness matrix is `EA/L = 1`. -/
theorem wKlocal66 :
    get_local_stiffness_matrix 1 1 1 1 1 1 1 6 6 = 1 := by
  show (1 : ℝ) * 1 / 1 = 1
  norm_num

/-- The assembled global stiffness of the concrete model at `(6,6)` is 1. -/
theorem wAssembleK66 : assembleK [wNode0, wNode1] [wMember] 6 6 = 1 := by
  unfold assembleK
  rw [List.map_cons, List.map_nil, List.sum_cons, List.sum_nil, add_zero]
  rw [show memberContribution [wNode0, wNode1] wMember 6 6 =
    (if get_member_length wNode0 wNode1 < 1e-10 then 0
     else ∑ i : Fin 12, ∑ j : Fin 12,
       if dof_map wNode0 wNode1 i = 6 ∧ dof_map wNode0 wNode1 j = 6 ∧
           1e-15 < |k_global wMember wNode0 wNode1 i j| then
         k_global wMember wNode0 wNode1 i j else 0) from rfl]
  rw [wLength_eval, if_neg (by norm_num)]
  simp only [wKglobal_eval, wDofMap_eval]
  have hcond : ∀ i : Fin 12, ((i : ℕ) = 6) = (i = 6) := by
    intro i
    refine propext ⟨fun h => Fin.ext ?_, fun h => by subst h; rfl⟩
    simpa using h
  simp only [hcond]
  have hsum : ∀ g : Fin 12 → ℝ, (∑ i : Fin 12, if i = 6 then g i else 0) = g 6 := by
    intro g
    rw [Finset.sum_ite_eq' Finset.univ (6 : Fin 12) g]
    simp
  refine (Finset.sum_congr rfl fun i _ => ?_).trans
    ((hsum fun i => ∑ j : Fin 12,
      if j = 6 ∧ 1e-15 < |get_local_stiffness_matrix 1 1 1 1 1 1 1 i j| then
        get_local_stiffness_matrix 1 1 1 1 1 1 1 i j else 0).trans ?_)
  · by_cases hi : i = 6
    · subst hi
      simp
    · simp [hi]
  · refine (Finset.sum_congr rfl fun j _ => ?_).trans
      ((hsum fun j =>
        if 1e-15 < |get_local_stiffness_matrix 1 1 1 1 1 1 1 6 j| then
          get_local_stiffness_matrix 1 1 1 1 1 1 1 6 j else 0).trans ?_)
    · rw [ite_and]
    · rw [wKlocal66]
      norm_num





/-- The reduced stiffness matrix of the concrete model (one free DOF) has
unit determinant. -/
theorem wReducedK_isUnit :
    IsUnit (reducedK [wNode0, wNode1] [wMember]
      ((identify_dofs [wNode0, wNode1] [wSupportFixed, wSupportAxial]).1)).det := by
  letI hu : Unique (Fin
      ((identify_dofs [wNode0, wNode1] [wSupportFixed, wSupportAxial]).1.length)) :=
    { default := ⟨0, by decide⟩
      uniq := fun a => Fin.ext (show a.val = 0 by
        have h := a.isLt
        have hl : ((identify_dofs [wNode0, wNode1]
          [wSupportFixed, wSupportAxial]).1).length = 1 := rfl
        have h2 : (a : ℕ) < 1 := lt_of_lt_of_le h (le_of_eq hl)
        omega) }
  rw [Matrix.det_unique]
  rw [show reducedK [wNode0, wNode1] [wMember]
      ((identify_dofs [wNode0, wNode1] [wSupportFixed, wSupportAxial]).1)
        default default =
      assembleK [wNode0, wNode1] [wMember] 6 6 from rfl, wAssembleK66]
  exact isUnit_one

/-- C3 witness: the hypotheses hold at the concrete one-free-DOF model with
two single-record load lists at node `n1`. -/
theorem claim_c3_witness :
    ([wLoad1].map Load.nodeId = [wLoad2].map Load.nodeId) ∧
    IsUnit (reducedK [wNode0, wNode1] [wMember]
      ((identify_dofs [wNode0, wNode1] [wSupportFixed, wSupportAxial]).1)).det ∧
    displacements_direct [wNode0, wNode1] [wMember] [wSupportFixed, wSupportAxial]
        (combineLoads [wLoad1] [wLoad2]) 6 =
      displacements_direct [wNode0, wNode1] [wMember] [wSupportFixed, wSupportAxial]
        [wLoad1] 6 +
      displacements_direct [wNode0, wNode1] [wMember] [wSupportFixed, wSupportAxial]
        [wLoad2] 6 :=
  ⟨rfl, wReducedK_isUnit,
    claim_c3 [wNode0, wNode1] [wMember] [wSupportFixed, wSupportAxial]
      [wLoad1] [wLoad2] rfl wReducedK_isUnit 6⟩


/-- C4 counterexample: at nodes `(0,0,0)`, `(1,0,0)` and roll angle
`β = 1e-11 ≠ 0`, the source skips the roll (its threshold is
`|β| > 1e-10`) while the claim right-multiplies by the roll matrix, whose
`sin β ≠ 0` entry makes the two matrices differ. -/
theorem claim_c4_counterexample :
    (1e-11 : ℝ) ≠ 0 ∧
    get_rotation_matrix wNode0 wNode1 1e-11 ≠ rotationSpecClaim wNode0 wNode1 1e-11 := by
  refine ⟨by norm_num, fun heq => ?_⟩
  have hcode : get_rotation_matrix wNode0 wNode1 1e-11 1 2 = 0 := by
    rw [wRotation_eval 1e-11 (by rw [abs_of_pos (by norm_num : (0:ℝ) < 1e-11)]; norm_num)]
    simp [Matrix.one_apply]
  have hspec : rotationSpecClaim wNode0 wNode1 1e-11 1 2 = Real.sin 1e-11 := by
    have hL : get_member_length wNode0 wNode1 = 1 := wLength_eval
    simp only [rotationSpecClaim, hL]
    norm_num [wNode0, wNode1, rollMatrix, Matrix.mul_apply, Fin.sum_univ_three,
      Matrix.vecHead, Matrix.vecTail]
  have hsin : Real.sin 1e-11 ≠ 0 :=
    ne_of_gt (Real.sin_pos_of_pos_of_lt_pi (by norm_num)
      (lt_trans (by norm_num) Real.pi_gt_three))
  rw [heq, hspec] at hcode
  exact hsin hcode


/-- C4 (amended): for distinct node positions, `get_rotation_matrix`
returns exactly the claimed degenerate matrix (with `sign c_y`) in the
vertical case and the claimed `D`-formula matrix otherwise, right-multiplied
by the roll matrix exactly when `|β| > 1e-10` (not for every `β ≠ 0`). -/
theorem claim_c4 (a b : Node) (beta : ℝ)
    (hab : ¬(b.x - a.x = 0 ∧ b.y - a.y = 0 ∧ b.z - a.z = 0)) :
    get_rotation_matrix a b beta = rotationSpecAmended a b beta := by
  have hs : 0 < (b.x - a.x) * (b.x - a.x) + (b.y - a.y) * (b.y - a.y) +
      (b.z - a.z) * (b.z - a.z) := by
    rcases not_and_or.mp hab with h | h'
    · have h1 := mul_self_pos.mpr h
      nlinarith [mul_self_nonneg (b.y - a.y), mul_self_nonneg (b.z - a.z)]
    · rcases not_and_or.mp h' with h | h
      · have h1 := mul_self_pos.mpr h
        nlinarith [mul_self_nonneg (b.x - a.x), mul_self_nonneg (b.z - a.z)]
      · have h1 := mul_self_pos.mpr h
        nlinarith [mul_self_nonneg (b.x - a.x), mul_self_nonneg (b.y - a.y)]
  have hL : 0 < get_member_length a b := Real.sqrt_pos.mpr hs
  have hLne : get_member_length a b ≠ 0 := ne_of_gt hL
  have hLL : get_member_length a b * get_member_length a b =
      (b.x - a.x) * (b.x - a.x) + (b.y - a.y) * (b.y - a.y) +
        (b.z - a.z) * (b.z - a.z) :=
    Real.mul_self_sqrt hs.le
  have hsum : (b.x - a.x) / get_member_length a b * ((b.x - a.x) / get_member_length a b) +
      (b.y - a.y) / get_member_length a b * ((b.y - a.y) / get_member_length a b) +
      (b.z - a.z) / get_member_length a b * ((b.z - a.z) / get_member_length a b) = 1 := by
    field_simp
    linarith [hLL]
  simp only [get_rotation_matrix, rotationSpecAmended]
  by_cases hv : |(b.x - a.x) / get_member_length a b| < 1e-10 ∧
      |(b.z - a.z) / get_member_length a b| < 1e-10
  · obtain ⟨hvx, hvz⟩ := hv
    have hcy : (b.y - a.y) / get_member_length a b ≠ 0 := by
      intro h0
      rw [h0] at hsum
      have h1 : (b.x - a.x) / get_member_length a b *
          ((b.x - a.x) / get_member_length a b) < 1e-20 := by
        nlinarith [abs_mul_abs_self ((b.x - a.x) / get_member_length a b),
          abs_nonneg ((b.x - a.x) / get_member_length a b)]
      have h2 : (b.z - a.z) / get_member_length a b *
          ((b.z - a.z) / get_member_length a b) < 1e-20 := by
        nlinarith [abs_mul_abs_self ((b.z - a.z) / get_member_length a b),
          abs_nonneg ((b.z - a.z) / get_member_length a b)]
      nlinarith
    rcases lt_trichotomy 0 ((b.y - a.y) / get_member_length a b) with hpos | hzero | hneg
    · simp only [if_pos (And.intro hvx hvz), if_pos hpos, Real.sign_of_pos hpos]
    · exact absurd hzero.symm hcy
    · simp only [if_pos (And.intro hvx hvz), if_neg (not_lt.mpr hneg.le),
        Real.sign_of_neg hneg, neg_neg]
  · simp only [if_neg hv]

/-- C4 witness: the amended statement holds at the concrete distinct nodes
with roll `1/2`. -/
theorem claim_c4_witness :
    (¬(wNode1.x - wNode0.x = 0 ∧ wNode1.y - wNode0.y = 0 ∧
        wNode1.z - wNode0.z = 0)) ∧
    get_rotation_matrix wNode0 wNode1 (1 / 2) =
      rotationSpecAmended wNode0 wNode1 (1 / 2) :=
  ⟨by norm_num [wNode0, wNode1],
    claim_c4 wNode0 wNode1 (1 / 2) (by norm_num [wNode0, wNode1])⟩

end BeamLab
